import Mathlib

/-!
Verification development for the `rediz` client (`src/rediz/client.py`).

The Python class `Rediz` is shallowly embedded: the redis/fakeredis backing
store is modelled as an explicit state (`RState`) of association lists with
optional absolute expiry times, every `Rediz` method touching the store is a
Lean function from state (plus an explicit clock and an explicit randomness
stream standing for `time.time()` and `threezaconventions.crypto.random_key()`)
to state, and Python exceptions are modelled with `Except PyErr`.

Conventions used throughout:
* the store's clock is an explicit `now : Nat` (UTC epoch seconds, as produced
  by `int(time.time())` in the source);
* a key with expiry `some e` is alive at time `t` iff `t < e` (redis expires a
  key once its deadline is reached);
* values stored under string keys are Lean `String`s; `sys.getsizeof` of such
  a payload is modelled by `py_getsizeof` (CPython's size of an ASCII `str`);
* association lists are updated by consing the new binding in front, so
  `List.lookup` always sees the most recent binding first.
-/

/-- Python exceptions that the embedded code can raise. -/
inductive PyErr where
  | typeError (msg : String) : PyErr
  | valueError (msg : String) : PyErr
  | nameError (msg : String) : PyErr
  | keyError (msg : String) : PyErr
  | indexError (msg : String) : PyErr
  | exception (msg : String) : PyErr
deriving DecidableEq, Repr

/-- CPython `sys.getsizeof` for an ASCII `str` payload: 49 bytes of object
overhead plus one byte per character. -/
def py_getsizeof (s : String) : Nat := 49 + s.length

/-- An absolute-expiry entry: alive at `t` iff `t` is before the deadline
(`none` means no expiry). -/
def aliveAt (t : Nat) (e : Option Nat) : Bool :=
  match e with
  | none => true
  | some d => t < d

/-- The backing store.  `strs` are plain string keys (value, expiry); `sets`
are redis sets (members, expiry); `hashes` are redis hashes (field list, no
expiry is ever placed on a hash by this client); `streams` are the
`xadd`-streams of history pointers. -/
structure RState where
  strs : List (String × (String × Option Nat)) := []
  sets : List (String × (List String × Option Nat)) := []
  hashes : List (String × List (String × String)) := []
  streams : List (String × List String) := []
deriving DecidableEq, Repr

/-- `GET key` at time `t`. -/
def rget (st : RState) (t : Nat) (k : String) : Option String :=
  match st.strs.lookup k with
  | some (v, e) => if aliveAt t e then some v else none
  | none => none

/-- `SMEMBERS key` at time `t` (an expired or absent set reads as empty). -/
def smembersAt (st : RState) (t : Nat) (k : String) : List String :=
  match st.sets.lookup k with
  | some (ms, e) => if aliveAt t e then ms else []
  | none => []

/-- `HGET key field` (hashes carry no expiry in this client). -/
def hgetAt (st : RState) (k f : String) : Option String :=
  match st.hashes.lookup k with
  | some fields => fields.lookup f
  | none => none

/-- `EXISTS key` at time `t`, over every keyspace. -/
def keyExists (st : RState) (t : Nat) (k : String) : Bool :=
  (match st.strs.lookup k with
   | some (_, e) => aliveAt t e
   | none => false) ||
  (match st.sets.lookup k with
   | some (_, e) => aliveAt t e
   | none => false) ||
  (st.hashes.lookup k).isSome || (st.streams.lookup k).isSome

/-- Update one field of a hash (redis `HSET`). -/
def hashUpsert (fields : List (String × String)) (f v : String) : List (String × String) :=
  (f, v) :: fields.filter (fun p => p.1 ≠ f)

/-- The store operations that the client pipelines.  `setx` is `SET ... EX`
(`ttl = none` is a plain `SET`/`MSET` write, which clears any expiry). -/
inductive RedisOp where
  | setx (key value : String) (ttl : Option Nat)
  | sadd (key member : String)
  | srem (key member : String)
  | expire (key : String) (ttl : Nat)
  | hset (key field value : String)
  | hdel (key : String) (fields : List String)
  | delKeys (keys : List String)
  | xadd (key entry : String)
deriving DecidableEq, Repr

/-- Apply one operation at time `t`. -/
def applyOp (t : Nat) (st : RState) (op : RedisOp) : RState :=
  match op with
  | .setx k v ttl =>
      { st with strs := (k, (v, ttl.map (t + ·))) :: st.strs.filter (fun p => p.1 ≠ k) }
  | .sadd k m =>
      let entry :=
        match st.sets.lookup k with
        | some (ms, e) =>
            if aliveAt t e then (if m ∈ ms then ms else ms ++ [m], e) else ([m], none)
        | none => ([m], none)
      { st with sets := (k, entry) :: st.sets.filter (fun p => p.1 ≠ k) }
  | .srem k m =>
      match st.sets.lookup k with
      | some (ms, e) =>
          { st with sets := (k, (ms.filter (· ≠ m), e)) :: st.sets.filter (fun p => p.1 ≠ k) }
      | none => st
  | .expire k ttl =>
      if (st.sets.lookup k).isSome then
        match st.sets.lookup k with
        | some (ms, _) =>
            { st with sets := (k, (ms, some (t + ttl))) :: st.sets.filter (fun p => p.1 ≠ k) }
        | none => st
      else
        match st.strs.lookup k with
        | some (v, _) =>
            { st with strs := (k, (v, some (t + ttl))) :: st.strs.filter (fun p => p.1 ≠ k) }
        | none => st
  | .hset k f v =>
      let fields := (st.hashes.lookup k).getD []
      { st with hashes := (k, hashUpsert fields f v) :: st.hashes.filter (fun p => p.1 ≠ k) }
  | .hdel k fs =>
      match st.hashes.lookup k with
      | some fields =>
          { st with hashes := (k, fields.filter (fun p => p.1 ∉ fs)) :: st.hashes.filter (fun p => p.1 ≠ k) }
      | none => st
  | .delKeys ks =>
      { strs := st.strs.filter (fun p => p.1 ∉ ks),
        sets := st.sets.filter (fun p => p.1 ∉ ks),
        hashes := st.hashes.filter (fun p => p.1 ∉ ks),
        streams := st.streams.filter (fun p => p.1 ∉ ks) }
  | .xadd k entry =>
      let cur := (st.streams.lookup k).getD []
      { st with streams := (k, cur ++ [entry]) :: st.streams.filter (fun p => p.1 ≠ k) }

/-- Execute a pipeline of operations in order at time `t`. -/
def applyOps (t : Nat) (st : RState) (ops : List RedisOp) : RState :=
  ops.foldl (applyOp t) st

-- ------------------------------------------------------------------
-- Reserved keys and prefixes (`Rediz.__init__`, client.py lines 71-82)
-- ------------------------------------------------------------------

def OBSCURITY : String := "09909e88-ca04-4868-a0a0-c94748df844f:::"
def OWNERSHIP : String := OBSCURITY ++ "ownership"
def NAMES : String := OBSCURITY ++ "names"
def PROMISES : String := OBSCURITY ++ "promises:"
def DELAYED : String := "delayed::"
def MESSAGES : String := "messages::"
def HISTORY : String := "history::"
def SUBSCRIBERS : String := "subscribers::"

/-- Default `delay_seconds` list: `[5,10,30,60,1*60,2*60,5*60,10*60,20*60,60*60]`. -/
def DELAY_SECONDS : List Nat := [5, 10, 30, 60, 1*60, 2*60, 5*60, 10*60, 20*60, 60*60]

-- ------------------------------------------------------------------
-- Validation (client.py lines 84-101)
-- ------------------------------------------------------------------

/-- Characters admitted by the stem class `[-a-zA-Z0-9_.:]` of the name
regex (`re.IGNORECASE` adds nothing to it). -/
def stemChar (c : Char) : Bool :=
  c = '-' || ('a' ≤ c && c ≤ 'z') || ('A' ≤ c && c ≤ 'Z') ||
  ('0' ≤ c && c ≤ '9') || c = '_' || c = '.' || c = ':'

/-- Characters admitted by the suffix class `[json,HTML]` under
`re.IGNORECASE`: the letters of `json` and `HTML` in either case, plus the
comma the class literally contains. -/
def suffixChar (c : Char) : Bool :=
  c.toLower = 'j' || c.toLower = 's' || c.toLower = 'o' || c.toLower = 'n' ||
  c = ',' || c.toLower = 'h' || c.toLower = 't' || c.toLower = 'm' || c.toLower = 'l'

/-- Does the character list contain the two-character substring `::`? -/
def hasDoubleColon : List Char → Bool
  | [] => false
  | [_] => false
  | a :: b :: rest => (a = ':' && b = ':') || hasDoubleColon (b :: rest)

/-- One candidate split of the regex match: position `i` carries the literal
dot, the 1-200 characters before it form the stem, the nonempty run after it
the suffix. -/
def nameSplitAt (cs : List Char) (i : Nat) : Bool :=
  decide (1 ≤ i) && decide (i ≤ 200) &&
  (cs.take i).all stemChar &&
  decide (cs.getD i ' ' = '.') &&
  decide (i + 1 < cs.length) &&
  (cs.drop (i + 1)).all suffixChar

/-- `re.match(r'^[-a-zA-Z0-9_.:]{1,200}\.[json,HTML]+$', name, re.IGNORECASE)`
matches iff the characters (up to one trailing newline, which Python's `$`
tolerates) decompose as a 1-200 character stem over the stem class, a literal
dot, and a nonempty run of suffix-class characters.  The decomposition is
searched over every position of the dot. -/
def nameRegexMatches (name : String) : Bool :=
  let cs0 := name.data
  let cs := if cs0.getLast? = some '\n' then cs0.dropLast else cs0
  (List.range cs.length).any (nameSplitAt cs)

/-- `Rediz.is_valid_name` (client.py lines 84-87): regex match and no `::`. -/
def is_valid_name (name : String) : Bool :=
  nameRegexMatches name && !hasDoubleColon name.data

/-- `Rediz.is_valid_value` (client.py lines 95-97): `sys.getsizeof(value) < 100000`. -/
def is_valid_value (value : String) : Bool :=
  py_getsizeof value < 100000

/-- `Rediz.is_valid_key` (client.py lines 99-101): a string of the length of
`str(uuid.uuid4())`, i.e. 36 characters. -/
def is_valid_key (key : String) : Bool :=
  key.length = 36

-- ------------------------------------------------------------------
-- Cost model (client.py lines 389-406), in exact rational arithmetic.
-- The Python source computes with IEEE floats; every operation involved
-- (constant products, one division, `math.ceil`, `min`) is monotone, so the
-- ordering facts proved below are shared by the float computation.
-- ------------------------------------------------------------------

def REPLICATION : ℚ := 3
def DOLLAR : ℚ := 10000
def COST_PER_MONTH_10MB : ℚ := 1 * DOLLAR
def COST_PER_MONTH_1b : ℚ := COST_PER_MONTH_10MB / (10 * 1000 * 1000)
def SECONDS_PER_DAY : ℚ := 60 * 60 * 24
def SECONDS_PER_MONTH : ℚ := SECONDS_PER_DAY * 30
def FIXED_COST_bytes : ℚ := 100
def MAX_TTL_SECONDS : ℤ := Int.floor (SECONDS_PER_DAY * 7)

/-- `Rediz.cost_based_ttl` (client.py lines 389-406): returns
`(ttl_seconds, ttl_days)`. -/
def cost_based_ttl (value : String) : ℤ × ℚ :=
  let num_bytes : ℚ := (py_getsizeof value : ℚ)
  let credits_per_month := REPLICATION * (num_bytes + FIXED_COST_bytes) * COST_PER_MONTH_1b
  let ttl_seconds := Int.ceil (SECONDS_PER_MONTH / credits_per_month)
  let ttl_seconds := min ttl_seconds MAX_TTL_SECONDS
  let ttl_days := (ttl_seconds : ℚ) / SECONDS_PER_DAY
  (ttl_seconds, ttl_days)

/-- The ttl used when pipelining `SET ... EX` (an `int` in the source). -/
def cost_based_ttl_nat (value : String) : Nat :=
  (cost_based_ttl value).1.toNat

-- ------------------------------------------------------------------
-- Random draws.  `threezaconventions.crypto.random_key()` is an external
-- collaborator; every draw the client makes is taken from an explicit stream
-- `rndf : Nat → String`, consumed left to right by a counter.
-- ------------------------------------------------------------------

abbrev Rnd := Nat → String

/-- The dict-shaped "intent" records the write pipeline accumulates.  A field
is `none` while the corresponding dict key is absent.  In the source a single
dict (the mutable default argument `intent=dict()` of `_modify_page`) is
shared by every call that does not pass `intent` explicitly, i.e. by all of
them; the phase functions below thread that shared dict through. -/
structure Intent where
  ndx : Option Nat := none
  name : Option String := none
  value : Option String := none
  ttl_days : Option ℚ := none
  isNew : Option Bool := none        -- dict key "new"
  obscure : Option Bool := none
  copy : Option String := none
  write_key : Option (Option String) := none
deriving DecidableEq

/-- A per-item rejection record; a field is `none` when the corresponding
dict key is absent.  `errror` is the literally misspelled key used by the
invalid-write-key rejections (client.py lines 279 and 318). -/
structure RejectRecord where
  ndx : Option Nat := none
  name : Option (Option String) := none
  value : Option String := none
  write_key : Option (Option String) := none
  official_write_key_ends_in : Option String := none
  error : Option String := none
  errror : Option String := none
deriving DecidableEq

/-- Reading `d[key]` from a dict raises `KeyError` when the key is absent. -/
def pyGetKey (v : Option α) (key : String) : Except PyErr α :=
  match v with
  | some x => .ok x
  | none => .error (.keyError key)

/-- Python `official_write_key[-4:]`: the last four characters (the whole
string when shorter); slicing `None` raises `TypeError`. -/
def pySliceLast4 (s : Option String) : Except PyErr String :=
  match s with
  | some s => .ok (s.takeRight 4)
  | none => .error (.typeError "NoneType is not subscriptable")

-- ------------------------------------------------------------------
-- Page writes (`_modify_page`, `_new_page`, `_new_obscure_page`,
-- client.py lines 435-476)
-- ------------------------------------------------------------------

/-- The operations `_modify_page` queues on the pipeline at time `now`, with
`salt` the `random_key()` draw used for the history-copy key: the live write
with its cost-based ttl, the salted history copy, the best-effort
`xadd` history pointer (modelled as succeeding, as on a stream-capable
server; on fakeredis the call raises and is swallowed by the
`try/except`), and, per configured delay, the promise registration and the
bucket expiry of `delay + 60`. -/
def modify_page_ops (now : Nat) (salt : String) (name value : String) : List RedisOp :=
  let ttl := cost_based_ttl_nat value
  let name_of_copy := salt ++ ":" ++ name
  let HISTORY_TTL := min (max (2*60*60) ttl) (60*60*24)
  [ .setx name value (some ttl),
    .setx name_of_copy value (some HISTORY_TTL),
    .xadd (HISTORY ++ name) name_of_copy ]
  ++ (DELAY_SECONDS.map (fun d =>
       [ RedisOp.sadd (PROMISES ++ toString (now + d))
           (name_of_copy ++ "->" ++ (DELAYED ++ toString d ++ ":" ++ name)),
         RedisOp.expire (PROMISES ++ toString (now + d)) (d + 60) ])).flatten

/-- The update `_modify_page` performs on the shared intent dict. -/
def modify_page_intent (salt : String) (ndx : Nat) (name value : String) (d : Intent) : Intent :=
  { d with ndx := some ndx, name := some name, value := some value,
           ttl_days := some (cost_based_ttl value).2,
           isNew := some false, obscure := some false,
           copy := some (salt ++ ":" ++ name) }

/-- `_new_page`: establish ownership, index the name, then modify the page. -/
def new_page_ops (now : Nat) (salt : String) (name value write_key : String) : List RedisOp :=
  [ .hset OWNERSHIP name write_key, .sadd NAMES name ] ++ modify_page_ops now salt name value

def new_page_intent (salt : String) (ndx : Nat) (name value write_key : String) (d : Intent) : Intent :=
  { modify_page_intent salt ndx name value d with
      isNew := some true, write_key := some (some write_key) }

def new_obscure_page_intent (salt : String) (ndx : Nat) (name value write_key : String) (d : Intent) : Intent :=
  { new_page_intent salt ndx name value write_key d with obscure := some true }

-- ------------------------------------------------------------------
-- The three write phases (client.py lines 263-363)
-- ------------------------------------------------------------------

/-- Result of one phase: the store after the phase's pipeline executed, the
number of accepted operations (each accepted intent record is a reference to
the shared dict `d`, so only the count and the final dict state matter), the
shared dict, the rejection records, the next randomness index and the
residual inputs handed to the next phase. -/
structure PhaseOut where
  st : RState
  count : Nat
  d : Intent
  rejected : List RejectRecord
  rnd : Nat
  residual : List (Nat × String × String × Option String)
deriving DecidableEq

/-- Loop accumulator shared by the phase loops. -/
structure PhaseAcc where
  rnd : Nat
  count : Nat
  d : Intent
  rejected : List RejectRecord
  ops : List RedisOp
  residual : List (Nat × String × String × Option String)
deriving DecidableEq

/-- The loop of `_pipelined_set_obscure` (client.py lines 271-287).  For an
invalid value the source builds the rejection dict with the expression
`"invalid value of type "+type(value)+" was supplied"`; concatenating `str`
with the `type` object raises `TypeError`, so the whole call raises instead
of recording the rejection. -/
def obscure_loop (rndf : Rnd) (now : Nat) (acc : PhaseAcc) :
    List (Nat × Option String × String × Option String) → Except PyErr PhaseAcc
  | [] => .ok acc
  | (ndx, name?, value, wk?) :: rest =>
    if is_valid_value value = false then
      .error (.typeError "can only concatenate str (not type) to str")
    else
      match name? with
      | none =>
        let wk := match wk? with | none => rndf acc.rnd | some w => w
        let i1 := match wk? with | none => acc.rnd + 1 | some _ => acc.rnd
        if is_valid_key wk = false then
          obscure_loop rndf now
            { acc with
              rnd := i1,
              rejected := acc.rejected ++
                [{ ndx := some ndx, name := some none, write_key := some (some wk),
                   errror := some "invalid write_key" }] } rest
        else
          let new_name := rndf i1 ++ ".json"
          obscure_loop rndf now
            { acc with
              rnd := i1 + 2, count := acc.count + 1,
              d := new_obscure_page_intent (rndf (i1+1)) ndx new_name value wk acc.d,
              ops := acc.ops ++ new_page_ops now (rndf (i1+1)) new_name value wk } rest
      | some n =>
        if is_valid_name n = false then
          obscure_loop rndf now
            { acc with
              rejected := acc.rejected ++
                [{ ndx := some ndx, name := some (some n), error := some "invalid name" }] } rest
        else
          obscure_loop rndf now { acc with residual := acc.residual ++ [(ndx, n, value, wk?)] } rest

/-- `_pipelined_set_obscure` (client.py lines 263-298). -/
def pipelined_set_obscure (st : RState) (now : Nat) (rndf : Rnd) (i0 : Nat) (d0 : Intent)
    (inputs : List (Nat × Option String × String × Option String)) : Except PyErr PhaseOut := do
  let acc ← obscure_loop rndf now
    { rnd := i0, count := 0, d := d0, rejected := [], ops := [], residual := [] } inputs
  pure { st := applyOps now st acc.ops, count := acc.count, d := acc.d,
         rejected := acc.rejected, rnd := acc.rnd, residual := acc.residual }

/-- The loop of `_pipelined_set_new` (client.py lines 313-323); `exist` is the
batched `hexists` answer computed before the loop. -/
def new_loop (rndf : Rnd) (now : Nat) (acc : PhaseAcc) :
    List (Bool × Nat × String × String × Option String) → PhaseAcc
  | [] => acc
  | (exist, ndx, n, value, wk?) :: rest =>
    if exist then
      new_loop rndf now { acc with residual := acc.residual ++ [(ndx, n, value, wk?)] } rest
    else
      let wk := match wk? with | none => rndf acc.rnd | some w => w
      let i1 := match wk? with | none => acc.rnd + 1 | some _ => acc.rnd
      if is_valid_key wk = false then
        new_loop rndf now
          { acc with
            rnd := i1,
            rejected := acc.rejected ++
              [{ ndx := some ndx, name := some (some n), write_key := some (some wk),
                 errror := some "invalid write_key" }] } rest
      else
        new_loop rndf now
          { acc with
            rnd := i1 + 1, count := acc.count + 1,
            d := new_page_intent (rndf i1) ndx n value wk acc.d,
            ops := acc.ops ++ new_page_ops now (rndf i1) n value wk } rest

/-- `_pipelined_set_new` (client.py lines 300-334). -/
def pipelined_set_new (st : RState) (now : Nat) (rndf : Rnd) (i0 : Nat) (d0 : Intent)
    (inputs : List (Nat × String × String × Option String)) : PhaseOut :=
  let withExists := inputs.map (fun p => ((hgetAt st OWNERSHIP p.2.1).isSome, p))
  let acc := new_loop rndf now
    { rnd := i0, count := 0, d := d0, rejected := [], ops := [], residual := [] } withExists
  { st := applyOps now st acc.ops, count := acc.count, d := acc.d,
    rejected := acc.rejected, rnd := acc.rnd, residual := acc.residual }

/-- The loop of `_pipelined_set_existing` (client.py lines 349-356);
`official` is the batched `hmget` answer.  On mismatch the rejection record
carries `official_write_key_ends_in`, the last four characters of the
official key (slicing raises `TypeError` if there is no official key). -/
def existing_loop (rndf : Rnd) (now : Nat) (acc : PhaseAcc) :
    List ((Option String) × Nat × String × String × Option String) → Except PyErr PhaseAcc
  | [] => .ok acc
  | (official, ndx, n, value, wk?) :: rest =>
    if wk? == official then
      existing_loop rndf now
        { acc with
          rnd := acc.rnd + 1, count := acc.count + 1,
          d := { modify_page_intent (rndf acc.rnd) ndx n value acc.d with
                 write_key := some wk? },
          ops := acc.ops ++ modify_page_ops now (rndf acc.rnd) n value } rest
    else do
      let frag ← pySliceLast4 official
      existing_loop rndf now
        { acc with
          rejected := acc.rejected ++
            [{ name := some (some n), value := some value, write_key := some wk?,
               official_write_key_ends_in := some frag,
               error := some "write_key does not match page_key on record" }] } rest

/-- `_pipelined_set_existing` (client.py lines 343-363). -/
def pipelined_set_existing (st : RState) (now : Nat) (rndf : Rnd) (i0 : Nat) (d0 : Intent)
    (inputs : List (Nat × String × String × Option String)) : Except PyErr PhaseOut := do
  let withOfficial := inputs.map (fun p => (hgetAt st OWNERSHIP p.2.1, p))
  let acc ← existing_loop rndf now
    { rnd := i0, count := 0, d := d0, rejected := [], ops := [], residual := [] } withOfficial
  pure { st := applyOps now st acc.ops, count := acc.count, d := acc.d,
         rejected := acc.rejected, rnd := acc.rnd, residual := [] }

-- ------------------------------------------------------------------
-- Subscriber fan-out (client.py lines 365-387) and subscriptions
-- ------------------------------------------------------------------

/-- `_propagate_to_subscribers`: read every modified name's subscriber set,
then write the new value into each subscriber's mailbox hash under the
sender's name as field key. -/
def propagate_to_subscribers (st : RState) (now : Nat) (names values : List String) : RState :=
  let subsSets := names.map (fun n => smembersAt st now (SUBSCRIBERS ++ n))
  ((names.zip values).zip subsSets).foldl
    (fun st1 p =>
      p.2.foldl (fun st2 s => applyOp now st2 (.hset (MESSAGES ++ s) p.1.1 p.1.2)) st1)
    st

/-- `_subscribe` (client.py lines 150-151). -/
def rediz_subscribe (st : RState) (now : Nat) (publisher subscriber : String) : RState :=
  applyOp now st (.sadd (SUBSCRIBERS ++ publisher) subscriber)

/-- The local variables bound in the body of `_unsubscribe`. -/
def unsubscribeVars (publisher subscriber : String) : List (String × String) :=
  [("publisher", publisher), ("subscriber", subscriber)]

/-- Python name resolution: an unbound name raises `NameError`. -/
def pyLookupVar (env : List (String × String)) (x : String) : Except PyErr String :=
  match env.lookup x with
  | some v => .ok v
  | none => .error (.nameError ("name " ++ x ++ " is not defined"))

/-- `_unsubscribe` (client.py lines 153-154):
`self.client.srem(self.SUBSCRIBERS+publisher,subsriber)` — the member
argument is the misspelled name `subsriber`, which is unbound. -/
def rediz_unsubscribe (st : RState) (now : Nat) (publisher subscriber : String) :
    Except PyErr RState := do
  let pub ← pyLookupVar (unsubscribeVars publisher subscriber) "publisher"
  let arg ← pyLookupVar (unsubscribeVars publisher subscriber) "subsriber"
  pure (applyOp now st (.srem (SUBSCRIBERS ++ pub) arg))

-- ------------------------------------------------------------------
-- `_set`, `_coerce_inputs`, `_coerce_outputs`, `set` (client.py 123-254)
-- ------------------------------------------------------------------

/-- `zip` of the four parallel argument lists (Python `zip` truncates to the
shortest list, as `List.zip` does). -/
def zip4 (a : List α) (b : List β) (c : List γ) (d : List δ) : List (α × β × γ × δ) :=
  (a.zip (b.zip (c.zip d))).map (fun x => (x.1, x.2.1, x.2.2.1, x.2.2.2))

/-- `_coerce_inputs` (client.py lines 217-228): broadcast singular arguments
over the names (`l or default` in Python also replaces an empty list). -/
def coerce_inputs (names? : Option (List (Option String))) (values? : Option (List String))
    (write_keys? : Option (List (Option String)))
    (name? : Option String) (value : String) (write_key? : Option String) :
    List (Option String) × List String × List (Option String) :=
  let names := match names? with
    | some l => if l.isEmpty then [name?] else l
    | none => [name?]
  let values := match values? with
    | some l => if l.isEmpty then names.map (fun _ => value) else l
    | none => names.map (fun _ => value)
  let write_keys := match write_keys? with
    | some l => if l.isEmpty then names.map (fun _ => write_key?) else l
    | none => names.map (fun _ => write_key?)
  (names, values, write_keys)

/-- The execution log `_set` returns.  Every accepted intent record is a
reference to the shared dict, so the `executed` list is
`List.replicate count d` read off at `_coerce_outputs` time; `rejected`
holds the (fresh) rejection dicts of the three phases in order. -/
structure SetLog where
  count : Nat
  d : Intent
  rejected : List RejectRecord
deriving DecidableEq

/-- `_set` (client.py lines 236-254): the three phases in sequence, then
subscriber fan-out over the modified (phase-3) names.  The
`modified_names`/`modified_values` are read from the phase-3 intent records,
which all alias the shared dict. -/
def rediz_set_core (st : RState) (now : Nat) (rndf : Rnd) (i0 : Nat) (d0 : Intent)
    (names : List (Option String)) (values : List String) (write_keys : List (Option String)) :
    Except PyErr (RState × SetLog) := do
  let ndxs := List.range names.length
  let r1 ← pipelined_set_obscure st now rndf i0 d0 (zip4 ndxs names values write_keys)
  let r2 := pipelined_set_new r1.st now rndf r1.rnd r1.d r1.residual
  let r3 ← pipelined_set_existing r2.st now rndf r2.rnd r2.d r2.residual
  let modified ←
    if r3.count = 0 then pure (([] : List String), ([] : List String))
    else do
      let n ← pyGetKey r3.d.name "name"
      let v ← pyGetKey r3.d.value "value"
      pure (List.replicate r3.count n, List.replicate r3.count v)
  let st4 := propagate_to_subscribers r3.st now modified.1 modified.2
  pure (st4, { count := r1.count + r2.count + r3.count, d := r3.d,
               rejected := r1.rejected ++ r2.rejected ++ r3.rejected })

/-- `_coerce_outputs` (client.py lines 230-234): one `{name, write_key}` dict
per executed record; all executed records alias the shared dict (so sorting
by `ndx` is the identity) and reading an absent key raises `KeyError`. -/
def coerce_outputs (count : Nat) (d : Intent) : Except PyErr (List (String × Option String)) :=
  (List.replicate count ()).mapM (fun _ => do
    let n ← pyGetKey d.name "name"
    let wk ← pyGetKey d.write_key "write_key"
    pure (n, wk))

/-- `set` used in the singular (client.py lines 123-142): `names is None`, so
the result is `access[0]`, which raises `IndexError` when nothing was
executed. -/
def rediz_set_single (st : RState) (now : Nat) (rndf : Rnd) (d0 : Intent)
    (name? : Option String) (value : String) (write_key? : Option String) :
    Except PyErr (RState × (String × Option String)) := do
  let (names, values, write_keys) := coerce_inputs none none none name? value write_key?
  let (st1, log) ← rediz_set_core st now rndf 0 d0 names values write_keys
  let access ← coerce_outputs log.count log.d
  match access[0]? with
  | some a => pure (st1, a)
  | none => .error (.indexError "list index out of range")

/-- `get` on a single name (client.py lines 111-116): an unauthenticated read. -/
def rediz_get (st : RState) (now : Nat) (name : String) : Option String :=
  rget st now name

-- ------------------------------------------------------------------
-- Deletion (client.py lines 156-198)
-- ------------------------------------------------------------------

/-- The body of `_delete` (client.py lines 174-198) once the reserved-name
assertion passed: read each name's subscriber set; then, for each subscriber
of each name, `hdel` the field `name` from the hash `MESSAGES+name` (the
source computes the mailbox from `name`, not from the subscriber); then the
batched removal of ownership fields, subscriber sets, mailboxes, live keys
and history keys, and the `SREM`s from the name index (a single variadic
`srem` in the source, modelled one member at a time). -/
def delete_names (st : RState) (now : Nat) (names : List String) : RState :=
  let subs := names.map (fun n => smembersAt st now (SUBSCRIBERS ++ n))
  let st1 := (names.zip subs).foldl
    (fun s p => p.2.foldl (fun s2 _ => applyOp now s2 (.hdel (MESSAGES ++ p.1) [p.1])) s) st
  applyOps now st1
    ([ .hdel OWNERSHIP names,
       .delKeys (names.map (fun n => SUBSCRIBERS ++ n)),
       .delKeys (names.map (fun n => MESSAGES ++ n)),
       .delKeys names,
       .delKeys (names.map (fun n => HISTORY ++ n)) ]
     ++ names.map (fun n => .srem NAMES n))

/-- `_delete` (client.py lines 174-198), including
`assert_not_in_reserved_namespace` (lines 89-93), which raises for any name
containing `::`. -/
def rediz_delete_names (st : RState) (now : Nat) (names : List String) : Except PyErr RState :=
  if names.any (fun n => hasDoubleColon n.data) then
    .error (.exception "Operation attempted with a name that lies in reserved namespace (e.g. double colon).")
  else
    .ok (delete_names st now names)

/-- `delete` used in the singular (client.py lines 156-161): validate the
write key against the ownership ledger, keep only authorized names, and call
`self._delete(*authorized_kill_list)`.  With an empty authorized list Python
calls `_delete()` without its required positional argument `names` and
raises `TypeError`. -/
def rediz_delete (st : RState) (now : Nat) (name : String) (write_key? : Option String) :
    Except PyErr RState :=
  let names := [name]
  let write_keys := [write_key?]
  let are_valid := (write_keys.zip (names.map (fun n => hgetAt st OWNERSHIP n))).map
    (fun p => p.1 == p.2)
  let authorized := ((names.zip are_valid).filter (fun p => p.2)).map (fun p => p.1)
  match authorized with
  | [] => .error (.typeError "_delete() missing 1 required positional argument: names")
  | ns => rediz_delete_names st now ns

-- ------------------------------------------------------------------
-- Promise execution (`admin_promises`, client.py lines 478-511)
-- ------------------------------------------------------------------

/-- Is `sep` a prefix of `s`? -/
def isPrefixList : List Char → List Char → Bool
  | [], _ => true
  | _ :: _, [] => false
  | a :: as, b :: bs => a = b && isPrefixList as bs

/-- Find the leftmost occurrence of the (nonempty) separator: returns the
part before it and the part after it. -/
def splitFirst (sep : List Char) : List Char → Option (List Char × List Char)
  | [] => none
  | c :: cs =>
    if isPrefixList sep (c :: cs) then some ([], (c :: cs).drop sep.length)
    else
      match splitFirst sep cs with
      | some (pre, post) => some (c :: pre, post)
      | none => none

/-- Python `s.split(sep)` for a nonempty separator: repeatedly cut at the
leftmost occurrence.  The fuel argument (bounded by the string length, plus
one) makes the recursion structural, so the function evaluates by
reduction; every cut removes at least one character, so the fuel never runs
out for a nonempty separator. -/
def pySplitFuel (sep : List Char) : Nat → List Char → List (List Char)
  | 0, s => [s]
  | fuel + 1, s =>
    match splitFirst sep s with
    | none => [s]
    | some (pre, post) => pre :: pySplitFuel sep fuel post

/-- Python `s.split(sep)` on character lists. -/
def pySplit (sep s : List Char) : List (List Char) :=
  pySplitFuel sep (s.length + 1) s

/-- Python tuple unpacking of `s.split(sep)` into two variables: anything but
exactly two parts raises `ValueError`. -/
def split2 (sep s : String) : Except PyErr (String × String) :=
  match pySplit sep.data s.data with
  | [a, b] => .ok (String.mk a, String.mk b)
  | parts =>
    if parts.length < 2 then .error (.valueError "not enough values to unpack (expected 2, got 1)")
    else .error (.valueError "too many values to unpack (expected 2)")

/-- The promise-parsing step of `admin_promises`: try the primary separator
`->`; on any failure fall back to `>>`; a failure of the fallback is not
caught and propagates. -/
def split_promise (p : String) : Except PyErr (String × String) :=
  match split2 "->" p with
  | .ok r => .ok r
  | .error _ => split2 ">>" p

/-- redis-py `client.delete(*names)`: with no names the command is malformed
and errors. -/
def pyDeleteKeys (st : RState) (now : Nat) (ks : List String) : Except PyErr RState :=
  match ks with
  | [] => .error (.valueError "wrong number of arguments for del command")
  | _ => .ok (applyOp now st (.delKeys ks))

/-- redis-py `client.mget(*keys)`: with no keys the required `keys` argument
is missing and Python raises `TypeError`. -/
def pyMget (st : RState) (now : Nat) (ks : List String) : Except PyErr (List (Option String)) :=
  match ks with
  | [] => .error (.typeError "mget() missing 1 required positional argument: keys")
  | _ => .ok (ks.map (rget st now))

/-- Python `dict(zip(keys, values))`: later bindings of the same key win. -/
def pyDict (pairs : List (String × Option String)) : List (String × Option String) :=
  pairs.foldl (fun acc p => (acc.filter (fun q => q.1 ≠ p.1)) ++ [p]) []

/-- redis-py `client.mset(mapping)`: an empty mapping is a malformed command,
and a `None` value cannot be serialized (`DataError`); otherwise each pair is
a plain `SET` without expiry. -/
def pyMset (st : RState) (now : Nat) (mapping : List (String × Option String)) :
    Except PyErr RState :=
  match mapping with
  | [] => .error (.valueError "wrong number of arguments for mset command")
  | _ =>
    if mapping.any (fun p => p.2.isNone) then
      .error (.typeError "Invalid input of type NoneType")
    else
      .ok (mapping.foldl
        (fun s p => applyOp now s (.setx p.1 (p.2.getD "") none)) st)

/-- `admin_promises` (client.py lines 478-511).  The comprehension
`[promise for promise,exist in zip(candidates,exists) if exists]` tests the
whole `exists` list (truthy whenever the lookback window is nonempty), not
the per-candidate flag, so every candidate bucket name is kept; reading a
nonexistent set yields no members, so the result is unchanged, but the
deletion also covers every candidate.  Promise members are parsed with the
`->`/`>>` fallback, sources are read in one `mget` and destinations written
in one `mset`; the call returns the size of the destination mapping.
The debugging `dump(...)` file write inside the loop is external IO and is
not modelled. -/
def admin_promises (st : RState) (now : Nat) (lookback_seconds : Nat) :
    Except PyErr (RState × Nat) := do
  let candidates := (List.range lookback_seconds).map (fun s => PROMISES ++ toString (now - s))
  let existsList := candidates.map (keyExists st now)
  let promise_collection_names := if existsList.isEmpty then [] else candidates
  let collections := promise_collection_names.map (smembersAt st now)
  let st1 ← pyDeleteKeys st now promise_collection_names
  let individual_promises := collections.flatten
  let pairs ← individual_promises.mapM split_promise
  let sources := pairs.map (fun p => p.1)
  let destinations := pairs.map (fun p => p.2)
  let source_values ← pyMget st1 now sources
  let mapping := pyDict (destinations.zip source_values)
  let st2 ← pyMset st1 now mapping
  pure (st2, mapping.length)

-- ------------------------------------------------------------------
-- Claim-support definitions
-- ------------------------------------------------------------------

/-- The regex-shaped decomposition that characterises a successful match of
the name pattern. -/
def regexDecomp (cs : List Char) : Prop :=
  ∃ stem suffix : List Char, cs = stem ++ '.' :: suffix ∧
    1 ≤ stem.length ∧ stem.length ≤ 200 ∧
    (∀ c ∈ stem, stemChar c = true) ∧
    suffix ≠ [] ∧ (∀ c ∈ suffix, suffixChar c = true)

/-- Modelled from the spec's words for claim C5: a string of total length
between 1 and 200, every character in the restricted class, ending in a
recognized content-type suffix (read as `.json` or `.html`,
case-insensitively, the two content types named by the source's suffix
class), and nowhere containing `::`. -/
def c5_claimedValidName (name : String) : Bool :=
  decide (1 ≤ name.length) && decide (name.length ≤ 200) &&
  name.data.all stemChar &&
  (name.toLower.endsWith ".json" || name.toLower.endsWith ".html") &&
  !hasDoubleColon name.data

/-- A 205-character name accepted by the source regex: a 200-character stem
followed by `.json`. -/
def c5_longName : String := String.mk (List.replicate 200 'a') ++ ".json"

/-- A 99951-character payload: `sys.getsizeof` is exactly 100000 bytes, above
the acceptance bound. -/
def c2_bigValue : String := String.mk (List.replicate 99951 'a')

/-- The store after one accepted write of value `"v"` to name `"n.json"` at
epoch 100, with salt `"s"` drawn for the history copy: exactly the pipeline
`_modify_page` queues (the shared write path of a page modification). -/
def promiseWriteState : RState := applyOps 100 {} (modify_page_ops 100 "s" "n.json" "v")

/-- A store holding one promise bucket for epoch 100 whose only member
`"foo"` parses under neither `->` nor `>>`. -/
def c7_badPromiseState : RState := { sets := [(PROMISES ++ "100", (["foo"], none))] }

/-- A store whose ownership ledger maps `x.json` to the key `offkey`. -/
def ownedLedger : RState := { hashes := [(OWNERSHIP, [("x.json", "offkey")])] }

/-- `op` leaves every read of the set keyed `k` unchanged. -/
def setPreserving (k : String) : RedisOp → Prop
  | .sadd k1 _ => k ≠ k1
  | .srem k1 _ => k ≠ k1
  | .expire k1 _ => k ≠ k1
  | .delKeys ks => k ∉ ks
  | _ => True

/-- `op` leaves every read of the string key `k` unchanged. -/
def strPreserving (k : String) : RedisOp → Prop
  | .setx k1 _ _ => k ≠ k1
  | .expire k1 _ => k ≠ k1
  | .delKeys ks => k ∉ ks
  | _ => True

/-- The (source, destination) pair a promise member parses to when
`split_promise` succeeds. -/
def promiseParts (m : String) : String × String :=
  (split_promise m).toOption.getD ("", "")

/-- The store after one accepted write of `value` to `name` at epoch `now`,
with `salt` the `random_key()` draw used for the history copy: exactly the
pipeline `_modify_page` queues (the shared write path of every page
modification). -/
def pageWriteState (now : Nat) (salt name value : String) : RState :=
  applyOps now {} (modify_page_ops now salt name value)

/-- The candidate bucket keys `admin_promises` examines with lookback `lb`
at time `exec` (the let-bound `candidates` of the source). -/
abbrev c3_candidates (lb exec : Nat) : List String :=
  (List.range lb).map (fun s => PROMISES ++ toString (exec - s))

/-- The flattened pool of promise members collected from the candidate
buckets (the let-bound `individual_promises` of the source). -/
abbrev c3_pool (st : RState) (lb exec : Nat) : List String :=
  ((c3_candidates lb exec).map (smembersAt st exec)).flatten

/-- The store after `admin_promises` deletes the candidate buckets. -/
abbrev c3_st1 (st : RState) (lb exec : Nat) : RState :=
  applyOp exec st (.delKeys (c3_candidates lb exec))

/-- The destination-to-value mapping `admin_promises` builds
(`dict(zip(destinations, source_values))` of the source). -/
abbrev c3_mapping (st : RState) (lb exec : Nat) : List (String × Option String) :=
  pyDict ((((c3_pool st lb exec).map promiseParts).map (fun p => p.2)).zip
    ((((c3_pool st lb exec).map promiseParts).map (fun p => p.1)).map
      (rget (c3_st1 st lb exec) exec)))

/-- The store after `admin_promises` msets the destination mapping. -/
abbrev c3_stOut (st : RState) (lb exec : Nat) : RState :=
  (c3_mapping st lb exec).foldl
    (fun s p => applyOp exec s (.setx p.1 (p.2.getD "") none)) (c3_st1 st lb exec)

/-- `op`'s `sadd` member (if it is one) satisfies `M`. -/
def saddMembersIn (M : String → Prop) : RedisOp → Prop
  | .sadd _ m => M m
  | _ => True

/-- The promise bucket `key` holds `member`, and its expiry (if any) is at
least `bound` seconds past `now`.  Established by the `sadd`/`expire` pair
`_modify_page` queues for a delay, and — because the configured delays are
nondecreasing — preserved by every later pair of the same pipeline, whatever
keys they touch. -/
def bucketState (key member : String) (now bound : Nat) (st : RState) : Prop :=
  ∃ ms e, st.sets.lookup key = some (ms, e) ∧ member ∈ ms ∧
    (e = none ∨ ∃ ttl, bound ≤ ttl ∧ e = some (now + ttl))

/-- Operations that cannot shrink a `bucketState` bound: set additions and
expiries of at least `bound` seconds. -/
def bucketSafe (bound : Nat) : RedisOp → Prop
  | .sadd _ _ => True
  | .expire _ ttl => bound ≤ ttl
  | _ => False

-- ==================================================================
-- Theorems
-- ==================================================================

-- helper lemmas ----------------------------------------------------

theorem py_getsizeof_eq (s : String) : py_getsizeof s = 49 + s.length := rfl

theorem except_ok_bind (a : α) (f : α → Except ε β) : (Except.ok a >>= f) = f a := rfl

theorem except_pure (a : α) : (pure a : Except ε α) = Except.ok a := rfl

theorem except_error_bind (e : ε) (f : α → Except ε β) :
    ((Except.error e : Except ε α) >>= f) = Except.error e := rfl

theorem is_valid_value_eq (v : String) :
    is_valid_value v = decide (py_getsizeof v < 100000) := rfl

theorem range_any_iff_regexDecomp (cs : List Char) :
    (List.range cs.length).any (nameSplitAt cs) = true ↔ regexDecomp cs := by
  rw [List.any_eq_true]
  constructor
  · rintro ⟨i, hi, hp⟩
    rw [List.mem_range] at hi
    simp only [nameSplitAt, Bool.and_eq_true, decide_eq_true_eq, List.all_eq_true] at hp
    obtain ⟨⟨⟨⟨⟨h1, h2⟩, h3⟩, h4⟩, h5⟩, h6⟩ := hp
    have hgi : cs[i] = '.' := by
      rw [List.getD_eq_getElem?_getD, List.getElem?_eq_getElem hi, Option.getD_some] at h4
      exact h4
    refine ⟨cs.take i, cs.drop (i + 1), ?_, ?_, ?_, ?_, ?_, ?_⟩
    · calc cs = cs.take i ++ cs.drop i := (List.take_append_drop i cs).symm
        _ = cs.take i ++ '.' :: cs.drop (i + 1) := by
            rw [List.drop_eq_getElem_cons hi, hgi]
    · rw [List.length_take]; omega
    · rw [List.length_take]; omega
    · exact h3
    · have : (cs.drop (i + 1)).length ≠ 0 := by rw [List.length_drop]; omega
      exact fun hnil => this (by rw [hnil]; rfl)
    · exact h6
  · rintro ⟨stem, suffix, hcs, h1, h2, hstem, hsuf, hsufall⟩
    have hsuflen : 1 ≤ suffix.length := by
      cases suffix with
      | nil => exact absurd rfl hsuf
      | cons a l => simp
    refine ⟨stem.length, ?_, ?_⟩
    · rw [List.mem_range, hcs, List.length_append, List.length_cons]; omega
    · subst hcs
      simp only [nameSplitAt, Bool.and_eq_true, decide_eq_true_eq, List.all_eq_true]
      refine ⟨⟨⟨⟨⟨h1, h2⟩, ?_⟩, ?_⟩, ?_⟩, ?_⟩
      · intro c hc
        rw [List.take_left] at hc
        exact hstem c hc
      · rw [List.getD_eq_getElem?_getD, List.getElem?_append_right (le_refl _)]
        simp
      · rw [List.length_append, List.length_cons]; omega
      · intro c hc
        have hdrop : (stem ++ '.' :: suffix).drop (stem.length + 1) = suffix := by
          have h0 : (stem ++ '.' :: suffix).drop stem.length = '.' :: suffix :=
            List.drop_left stem ('.' :: suffix)
          rw [← List.drop_drop 1 stem.length, h0]
          rfl
        rw [hdrop] at hc
        exact hsufall c hc

-- C5 ---------------------------------------------------------------

set_option maxRecDepth 20000 in
/-- C5 counterexample: the 205-character name `c5_longName` (a 200-character
stem followed by `.json`) is accepted by `is_valid_name`, but the claimed
characterisation — total length between 1 and 200, allowed characters,
recognized content-type suffix, no `::` — rejects it, so the claimed
equivalence fails at this input. -/
theorem c5_counterexample_long_name :
    is_valid_name c5_longName = true ∧ c5_claimedValidName c5_longName = false := by
  constructor <;> decide

/-- C5 (amended): `is_valid_name name` returns `true` iff the characters of
`name` (ignoring one trailing newline, which the regex's `$` tolerates)
decompose as a stem of 1-200 characters from `[-a-zA-Z0-9_.:]`, a literal
dot, and a nonempty run of characters from the class `[json,HTML]`
(case-insensitive, comma included), and `name` nowhere contains `::`.  In
particular the total length may exceed 200 and the part after the last dot
need not be a recognized content type. -/
theorem c5_amended_is_valid_name_iff (name : String) :
    is_valid_name name = true ↔
      regexDecomp (if name.data.getLast? = some '\n' then name.data.dropLast else name.data) ∧
      hasDoubleColon name.data = false := by
  show (nameRegexMatches name && !hasDoubleColon name.data) = true ↔ _
  rw [Bool.and_eq_true, Bool.not_eq_true']
  have : nameRegexMatches name = true ↔
      regexDecomp (if name.data.getLast? = some '\n' then name.data.dropLast else name.data) := by
    show (List.range (if name.data.getLast? = some '\n' then name.data.dropLast
          else name.data).length).any
        (nameSplitAt (if name.data.getLast? = some '\n' then name.data.dropLast
          else name.data)) = true ↔ _
    exact range_any_iff_regexDecomp _
  rw [this]

-- C6 ---------------------------------------------------------------

/-- C6: `cost_based_ttl` yields at most one week (604800 seconds) of ttl,
and is anti-monotone in the serialized size of the value: a value at most as
large as another receives at least as long a ttl. -/
theorem c6_ttl_capped_and_antimonotone (v1 v2 : String)
    (h : py_getsizeof v1 ≤ py_getsizeof v2) :
    (cost_based_ttl v1).1 ≤ 604800 ∧ (cost_based_ttl v2).1 ≤ (cost_based_ttl v1).1 := by
  have hmax : MAX_TTL_SECONDS = 604800 := by
    norm_num [MAX_TTL_SECONDS, SECONDS_PER_DAY]
  have hfst : ∀ v : String, (cost_based_ttl v).1 =
      min (Int.ceil (SECONDS_PER_MONTH /
        (REPLICATION * ((py_getsizeof v : ℚ) + FIXED_COST_bytes) * COST_PER_MONTH_1b)))
        MAX_TTL_SECONDS := fun v => rfl
  constructor
  · rw [hfst, hmax]; exact min_le_right _ _
  · rw [hfst, hfst]
    apply min_le_min_right
    apply Int.ceil_le_ceil
    have hpos : ∀ n : Nat,
        (0:ℚ) < REPLICATION * ((n : ℚ) + FIXED_COST_bytes) * COST_PER_MONTH_1b := by
      intro n
      have : (0:ℚ) ≤ (n : ℚ) := Nat.cast_nonneg n
      norm_num [REPLICATION, FIXED_COST_bytes, COST_PER_MONTH_1b, COST_PER_MONTH_10MB, DOLLAR]
      positivity
    have hnum : (0:ℚ) ≤ SECONDS_PER_MONTH := by
      norm_num [SECONDS_PER_MONTH, SECONDS_PER_DAY]
    have hmul : ((py_getsizeof v1 : ℚ) + FIXED_COST_bytes) ≤
        ((py_getsizeof v2 : ℚ) + FIXED_COST_bytes) := by
      have := (Nat.cast_le (α := ℚ)).mpr h
      linarith
    have hrep : (0:ℚ) ≤ REPLICATION := by norm_num [REPLICATION]
    have hcost : (0:ℚ) ≤ COST_PER_MONTH_1b := by
      norm_num [COST_PER_MONTH_1b, COST_PER_MONTH_10MB, DOLLAR]
    exact div_le_div_of_nonneg_left hnum (hpos _)
      (mul_le_mul_of_nonneg_right (mul_le_mul_of_nonneg_left hmul hrep) hcost)

/-- Witness for C6 at sizes 49 and 51. -/
theorem c6_witness :
    py_getsizeof "" ≤ py_getsizeof "aa" ∧
    ((cost_based_ttl "").1 ≤ 604800 ∧ (cost_based_ttl "aa").1 ≤ (cost_based_ttl "").1) :=
  ⟨by decide, c6_ttl_capped_and_antimonotone "" "aa" (by decide)⟩

-- C9 ---------------------------------------------------------------

/-- C9: `_unsubscribe` never reaches the `srem`: its member argument is the
misspelled, unbound name `subsriber`, so every call raises `NameError`
instead of removing the subscriber (claim expects a plain set-remove without
raising). -/
theorem c9_unsubscribe_raises_nameError (st : RState) (now : Nat)
    (publisher subscriber : String) :
    rediz_unsubscribe st now publisher subscriber =
      .error (.nameError "name subsriber is not defined") := rfl

-- C2 ---------------------------------------------------------------

/-- C2 (code bug): a batch containing an oversized value does not get a
collected per-item validation rejection — while building the rejection
record the source evaluates `"invalid value of type "+type(value)`, and
concatenating `str` with a `type` object raises `TypeError`, so the whole
`set` call aborts before any store operation executes. -/
theorem c2_oversized_value_raises (st : RState) (now : Nat) (rndf : Rnd) (d0 : Intent)
    (name? : Option String) (v : String) (wk? : Option String)
    (hv : is_valid_value v = false) :
    rediz_set_single st now rndf d0 name? v wk? =
      .error (.typeError "can only concatenate str (not type) to str") := by
  have hstep : pipelined_set_obscure st now rndf 0 d0 (zip4 (List.range 1) [name?] [v] [wk?]) =
      .error (.typeError "can only concatenate str (not type) to str") := by
    simp [pipelined_set_obscure, zip4, obscure_loop, hv, Except.bind]
  simp only [rediz_set_single, rediz_set_core, coerce_inputs, List.map_cons, List.map_nil,
    List.length_cons, List.length_nil]
  rw [show (0 + 1) = 1 from rfl, hstep]
  rfl

/-- Witness for C2: a 100000-byte value makes the singular `set` raise
`TypeError` instead of reporting a validation rejection. -/
theorem c2_witness :
    is_valid_value c2_bigValue = false ∧
    rediz_set_single {} 0 (fun _ => "") {} (some "big.json") c2_bigValue (some "k") =
      .error (.typeError "can only concatenate str (not type) to str") := by
  have hlen : c2_bigValue.length = 99951 := by
    have h : c2_bigValue.length = (List.replicate 99951 'a').length := rfl
    rw [h, List.length_replicate]
  have hnot : ¬ (py_getsizeof c2_bigValue < 100000) := by
    rw [py_getsizeof_eq, hlen]
    omega
  have hv : is_valid_value c2_bigValue = false := by
    rw [is_valid_value_eq]
    exact decide_eq_false hnot
  exact ⟨hv, c2_oversized_value_raises {} 0 (fun _ => "") {} (some "big.json") c2_bigValue
    (some "k") hv⟩

-- C4 ---------------------------------------------------------------

/-- C4 (code bug): a `delete` whose supplied write key does not match the
ledger's answer for the name (including the case of a name with no ledger
entry and a non-`None` key) is not a silent no-op: the authorized kill list
is empty and `self._delete(*[])` calls `_delete` without its required
positional argument `names`, raising `TypeError`. -/
theorem c4_unauthorized_delete_raises (st : RState) (now : Nat) (name : String)
    (wk? : Option String) (h : (wk? == hgetAt st OWNERSHIP name) = false) :
    rediz_delete st now name wk? =
      .error (.typeError "_delete() missing 1 required positional argument: names") := by
  simp [rediz_delete, h]

/-- Witness for C4: deleting `x.json` (owned with key `K`) with the wrong
key raises `TypeError`. -/
theorem c4_witness :
    ((some "wrong-key" : Option String) ==
      hgetAt { hashes := [(OWNERSHIP, [("x.json", "K")])] } OWNERSHIP "x.json") = false ∧
    rediz_delete { hashes := [(OWNERSHIP, [("x.json", "K")])] } 0 "x.json" (some "wrong-key") =
      .error (.typeError "_delete() missing 1 required positional argument: names") :=
  ⟨by decide, c4_unauthorized_delete_raises _ 0 "x.json" (some "wrong-key") (by decide)⟩

-- C10 --------------------------------------------------------------

/-- C10: a singular `set` whose single input is rejected (here: a
syntactically invalid name with an acceptable value) executes nothing, so
`_coerce_outputs` returns an empty list and the final `access[0]` raises
`IndexError` instead of returning any rejection indication. -/
theorem c10_singular_rejected_set_raises_indexError (st : RState) (now : Nat) (rndf : Rnd)
    (d0 : Intent) (n v : String) (wk? : Option String)
    (hv : is_valid_value v = true) (hn : is_valid_name n = false) :
    rediz_set_single st now rndf d0 (some n) v wk? =
      .error (.indexError "list index out of range") := by
  simp [rediz_set_single, rediz_set_core, coerce_inputs, zip4, pipelined_set_obscure,
        obscure_loop, hv, hn, pipelined_set_new, new_loop, pipelined_set_existing,
        existing_loop, applyOps, propagate_to_subscribers, coerce_outputs,
        List.mapM.loop, except_ok_bind, except_error_bind]

/-- Witness for C10: a singular `set` of the invalid name `bad_name` raises
`IndexError`. -/
theorem c10_witness :
    is_valid_value "x" = true ∧ is_valid_name "bad_name" = false ∧
    rediz_set_single {} 0 (fun _ => "") {} (some "bad_name") "x" (some "k") =
      .error (.indexError "list index out of range") :=
  ⟨by decide, by decide,
    c10_singular_rejected_set_raises_indexError {} 0 (fun _ => "") {} "bad_name" "x" (some "k")
      (by decide) (by decide)⟩

-- C1 ---------------------------------------------------------------

/-- C1: in the existing-name phase, a set of a name present in the ownership
ledger with a supplied write key performs a page modification (the
`_modify_page` pipeline is queued and executed, the accepted count is 1)
iff the supplied key equals the recorded key; on mismatch the input is
rejected with an ownership error carrying only the last four characters of
the official key, and nothing is pipelined for it — the store is unchanged. -/
theorem c1_existing_set_permissioning (st : RState) (now : Nat) (rndf : Rnd) (i0 : Nat)
    (d0 : Intent) (ndx : Nat) (n v k okk : String)
    (hown : hgetAt st OWNERSHIP n = some okk) :
    pipelined_set_existing st now rndf i0 d0 [(ndx, n, v, some k)] =
      .ok (if k = okk then
            { st := applyOps now st (modify_page_ops now (rndf i0) n v), count := 1,
              d := { modify_page_intent (rndf i0) ndx n v d0 with write_key := some (some k) },
              rejected := [], rnd := i0 + 1, residual := [] }
          else
            { st := st, count := 0, d := d0,
              rejected := [{ name := some (some n), value := some v,
                             write_key := some (some k),
                             official_write_key_ends_in := some (okk.takeRight 4),
                             error := some "write_key does not match page_key on record" }],
              rnd := i0, residual := [] }) := by
  by_cases h : k = okk
  · subst h
    rw [if_pos rfl]
    have hloop : existing_loop rndf now
        { rnd := i0, count := 0, d := d0, rejected := [], ops := [], residual := [] }
        [(some k, ndx, n, v, some k)] =
      .ok { rnd := i0 + 1, count := 0 + 1,
            d := { modify_page_intent (rndf i0) ndx n v d0 with
                   write_key := some (some k) },
            rejected := [], ops := [] ++ modify_page_ops now (rndf i0) n v,
            residual := [] } := by
      simp only [existing_loop, beq_self_eq_true, if_true, except_ok_bind, except_pure]
    have h1 : pipelined_set_existing st now rndf i0 d0 [(ndx, n, v, some k)] =
        .ok { st := applyOps now st ([] ++ modify_page_ops now (rndf i0) n v),
              count := 0 + 1,
              d := { modify_page_intent (rndf i0) ndx n v d0 with
                     write_key := some (some k) },
              rejected := [], rnd := i0 + 1, residual := [] } := by
      rw [pipelined_set_existing]
      simp only [List.map_cons, List.map_nil, hown]
      rw [hloop]
      rfl
    rw [h1, List.nil_append]
  · rw [if_neg h]
    have hbeq : ((some k : Option String) == some okk) = false :=
      beq_eq_false_iff_ne.mpr (by simpa using h)
    have hloop : existing_loop rndf now
        { rnd := i0, count := 0, d := d0, rejected := [], ops := [], residual := [] }
        [(some okk, ndx, n, v, some k)] =
      .ok { rnd := i0, count := 0, d := d0,
            rejected := [] ++ [{ name := some (some n), value := some v,
                                 write_key := some (some k),
                                 official_write_key_ends_in := some (okk.takeRight 4),
                                 error := some "write_key does not match page_key on record" }],
            ops := [], residual := [] } := by
      simp only [existing_loop, hbeq, Bool.false_eq_true, if_false, pySliceLast4,
        except_ok_bind, except_pure]
    have h1 : pipelined_set_existing st now rndf i0 d0 [(ndx, n, v, some k)] =
        .ok { st := applyOps now st [], count := 0, d := d0,
              rejected := [] ++ [{ name := some (some n), value := some v,
                                   write_key := some (some k),
                                   official_write_key_ends_in := some (okk.takeRight 4),
                                   error := some "write_key does not match page_key on record" }],
              rnd := i0, residual := [] } := by
      rw [pipelined_set_existing]
      simp only [List.map_cons, List.map_nil, hown]
      rw [hloop]
      rfl
    rw [h1, List.nil_append]
    rfl

/-- Witness for C1: on the concrete ledger `ownedLedger`, a set of `x.json`
with the wrong key is rejected with the `fkey` fragment and leaves the store
unchanged. -/
theorem c1_witness :
    hgetAt ownedLedger OWNERSHIP "x.json" = some "offkey" ∧
    pipelined_set_existing ownedLedger 7 (fun _ => "salt") 3 {} [(0, "x.json", "v", some "wrong")] =
      .ok (if ("wrong" : String) = "offkey" then
            { st := applyOps 7 ownedLedger (modify_page_ops 7 "salt" "x.json" "v"), count := 1,
              d := { modify_page_intent "salt" 0 "x.json" "v" {} with
                     write_key := some (some "wrong") },
              rejected := [], rnd := 4, residual := [] }
          else
            { st := ownedLedger, count := 0, d := {},
              rejected := [{ name := some (some "x.json"), value := some "v",
                             write_key := some (some "wrong"),
                             official_write_key_ends_in := some ("offkey".takeRight 4),
                             error := some "write_key does not match page_key on record" }],
              rnd := 3, residual := [] }) :=
  ⟨by decide,
   c1_existing_set_permissioning ownedLedger 7 (fun _ => "salt") 3 {} 0 "x.json" "v" "wrong"
     "offkey" (by decide)⟩

-- C7 ---------------------------------------------------------------

theorem split2_error_shape (sep s : String) (e : PyErr) (h : split2 sep s = .error e) :
    ∃ msg, e = .valueError msg := by
  unfold split2 at h
  split at h
  · exact absurd h (by simp)
  · split at h
    · exact ⟨_, (Except.error.inj h).symm⟩
    · exact ⟨_, (Except.error.inj h).symm⟩

theorem split_promise_error_shape (m : String) (e : PyErr)
    (h : split_promise m = .error e) : ∃ msg, e = .valueError msg := by
  unfold split_promise at h
  split at h
  · exact absurd h (by simp)
  · exact split2_error_shape ">>" m e h

theorem split_promise_not_ok_error (m : String) (h : (split_promise m).isOk = false) :
    ∃ msg, split_promise m = .error (.valueError msg) := by
  cases hsp : split_promise m with
  | ok r => rw [hsp] at h; simp [Except.isOk, Except.toBool] at h
  | error e =>
    obtain ⟨msg, rfl⟩ := split_promise_error_shape m e hsp
    exact ⟨msg, rfl⟩

theorem mapM_loop_split_error (l : List String) (acc : List (String × String))
    (x : String) (hx : x ∈ l) (hfail : (split_promise x).isOk = false) :
    ∃ msg, List.mapM.loop split_promise l acc = .error (.valueError msg) := by
  induction l generalizing acc with
  | nil => cases hx
  | cons hd tl ih =>
    rw [List.mapM.loop]
    cases hsp : split_promise hd with
    | error e =>
      obtain ⟨msg, rfl⟩ := split_promise_error_shape hd e hsp
      exact ⟨msg, rfl⟩
    | ok r =>
      rcases List.mem_cons.mp hx with rfl | hx2
      · simp [hsp, Except.isOk, Except.toBool] at hfail
      · obtain ⟨msg, hm⟩ := ih (r :: acc) hx2
        exact ⟨msg, hm⟩

theorem pyDeleteKeys_ok (st : RState) (now : Nat) (ks : List String) (h : ks ≠ []) :
    pyDeleteKeys st now ks = .ok (applyOp now st (.delKeys ks)) := by
  unfold pyDeleteKeys
  cases ks with
  | nil => exact absurd rfl h
  | cons a t => rfl

/-- C7 counterexample: a matured promise bucket containing the member
`"foo"`, which splits under neither `->` nor `>>`, makes `admin_promises`
raise `ValueError` instead of silently dropping the member. -/
theorem c7_counterexample_unparseable_member_raises :
    admin_promises c7_badPromiseState 100 65 =
      .error (.valueError "not enough values to unpack (expected 2, got 1)") := by rfl

/-- C7 (amended): a member that does not split into exactly two parts by the
primary separator `->` is retried with the alternate separator `>>`; but a
member that fails to parse under both separators is not dropped — it makes
`admin_promises` raise `ValueError`, aborting the remaining copies of that
run. -/
theorem c7_amended_fallback_then_raise :
    (∀ m : String, (pySplit "->".data m.data).length ≠ 2 → split_promise m = split2 ">>" m) ∧
    (∀ (st : RState) (now lb s : Nat) (m : String), s < lb →
      m ∈ smembersAt st now (PROMISES ++ toString (now - s)) →
      (split_promise m).isOk = false →
      ∃ msg, admin_promises st now lb = .error (.valueError msg)) := by
  constructor
  · intro m hm
    unfold split_promise
    have he : ∃ e, split2 "->" m = .error e := by
      unfold split2
      rcases h1 : pySplit "->".data m.data with _ | ⟨a, _ | ⟨b, _ | ⟨c, t⟩⟩⟩
      · exact ⟨_, rfl⟩
      · exact ⟨_, rfl⟩
      · rw [h1] at hm; simp at hm
      · exact ⟨_, rfl⟩
    obtain ⟨e, he⟩ := he
    rw [he]
  · intro st now lb s m hs hm hfail
    have hlb : lb ≠ 0 := by omega
    have hcne : (List.range lb).map (fun s => PROMISES ++ toString (now - s)) ≠ [] := by
      rw [Ne, List.map_eq_nil_iff, List.range_eq_nil]
      exact hlb
    have hmem : m ∈ (((List.range lb).map (fun s => PROMISES ++ toString (now - s))).map
        (smembersAt st now)).flatten := by
      apply List.mem_flatten.mpr
      exact ⟨smembersAt st now (PROMISES ++ toString (now - s)),
        List.mem_map_of_mem _ (List.mem_map_of_mem _ (List.mem_range.mpr hs)), hm⟩
    obtain ⟨msg, hmapM⟩ := mapM_loop_split_error _ [] m hmem hfail
    refine ⟨msg, ?_⟩
    simp only [admin_promises]
    rw [if_neg (by simpa [List.isEmpty_eq_false, Ne, List.map_eq_nil_iff, List.range_eq_nil]
      using hlb)]
    rw [pyDeleteKeys_ok _ _ _ hcne, except_ok_bind]
    rw [show ∀ (l : List String), l.mapM split_promise = List.mapM.loop split_promise l []
      from fun _ => rfl]
    rw [hmapM]
    rfl

/-- Witness for C7: the member `foo` splits under neither separator; with it
sitting in the matured bucket for epoch 100, `admin_promises` raises
`ValueError`. -/
theorem c7_witness :
    ((pySplit "->".data "foo".data).length ≠ 2 ∧ split_promise "foo" = split2 ">>" "foo") ∧
    (0 < 65 ∧
     "foo" ∈ smembersAt c7_badPromiseState 100 (PROMISES ++ toString (100 - 0)) ∧
     (split_promise "foo").isOk = false ∧
     ∃ msg, admin_promises c7_badPromiseState 100 65 = .error (.valueError msg)) :=
  ⟨⟨by decide, c7_amended_fallback_then_raise.1 "foo" (by decide)⟩,
   by decide, by decide, by decide,
   c7_amended_fallback_then_raise.2 c7_badPromiseState 100 65 0 "foo" (by decide) (by decide)
     (by decide)⟩


-- C8 helper lemmas -------------------------------------------------

theorem beq_string_false (k k1 : String) (h : k ≠ k1) : (k == k1) = false :=
  beq_eq_false_iff_ne.mpr h

theorem lookup_filter_ne {β : Type} (l : List (String × β)) (k k1 : String) (h : k ≠ k1) :
    (l.filter (fun p => p.1 ≠ k1)).lookup k = l.lookup k := by
  induction l with
  | nil => rfl
  | cons hd tl ih =>
    by_cases hh : hd.1 = k1
    · rw [show (hd :: tl).filter (fun p => p.1 ≠ k1) = tl.filter (fun p => p.1 ≠ k1) by
        simp [List.filter, hh]]
      rw [ih, List.lookup]
      rw [beq_string_false k hd.1 (by rw [hh]; exact h)]
    · rw [show (hd :: tl).filter (fun p => p.1 ≠ k1) =
        hd :: tl.filter (fun p => p.1 ≠ k1) by simp [List.filter, hh]]
      rw [List.lookup, List.lookup]
      cases k == hd.1 with
      | true => rfl
      | false => exact ih

theorem lookup_filter_notmem {β : Type} (l : List (String × β)) (k : String)
    (ks : List String) (h : k ∉ ks) :
    (l.filter (fun p => p.1 ∉ ks)).lookup k = l.lookup k := by
  induction l with
  | nil => rfl
  | cons hd tl ih =>
    by_cases hh : hd.1 ∈ ks
    · rw [show (hd :: tl).filter (fun p => p.1 ∉ ks) = tl.filter (fun p => p.1 ∉ ks) by
        simp [List.filter, hh]]
      rw [ih, List.lookup]
      rw [beq_string_false k hd.1 (fun he => h (he ▸ hh))]
    · rw [show (hd :: tl).filter (fun p => p.1 ∉ ks) =
        hd :: tl.filter (fun p => p.1 ∉ ks) by simp [List.filter, hh]]
      rw [List.lookup, List.lookup]
      cases k == hd.1 with
      | true => rfl
      | false => exact ih

theorem lookup_cons_ne {β : Type} (k k1 : String) (b : β) (l : List (String × β))
    (h : k ≠ k1) : List.lookup k ((k1, b) :: l) = List.lookup k l := by
  simp [List.lookup, beq_string_false k k1 h]

theorem smembersAt_applyOp_preserve (st : RState) (t t1 : Nat) (k : String) (op : RedisOp)
    (h : setPreserving k op) :
    smembersAt (applyOp t st op) t1 k = smembersAt st t1 k := by
  cases op with
  | setx a b c => rfl
  | xadd a b => rfl
  | hset a b c => rfl
  | hdel a b =>
    cases hl : List.lookup a st.hashes with
    | none => simp only [applyOp, hl]
    | some fields => simp only [applyOp, hl]; rfl
  | sadd k1 m =>
    simp only [applyOp, smembersAt, lookup_cons_ne _ _ _ _ h, lookup_filter_ne _ _ _ h]
  | srem k1 m =>
    cases hl : List.lookup k1 st.sets with
    | none => simp only [applyOp, hl]
    | some pr =>
      obtain ⟨ms, e⟩ := pr
      simp only [applyOp, hl, smembersAt, lookup_cons_ne _ _ _ _ h, lookup_filter_ne _ _ _ h]
  | expire k1 dur =>
    cases hl : List.lookup k1 st.sets with
    | some pr =>
      obtain ⟨ms, e⟩ := pr
      simp only [applyOp, hl, Option.isSome_some, if_true, smembersAt,
        lookup_cons_ne _ _ _ _ h, lookup_filter_ne _ _ _ h]
    | none =>
      cases hl2 : List.lookup k1 st.strs with
      | none => simp only [applyOp, hl, hl2, Option.isSome_none, Bool.false_eq_true, if_false]
      | some pr =>
        simp only [applyOp, hl, hl2, Option.isSome_none, Bool.false_eq_true, if_false]
        rfl
  | delKeys ks =>
    simp only [applyOp, smembersAt, lookup_filter_notmem _ _ _ h]

theorem smembersAt_applyOps_preserve (ops : List RedisOp) (st : RState) (t t1 : Nat)
    (k : String) (h : ∀ op ∈ ops, setPreserving k op) :
    smembersAt (applyOps t st ops) t1 k = smembersAt st t1 k := by
  induction ops generalizing st with
  | nil => rfl
  | cons hd tl ih =>
    show smembersAt (applyOps t (applyOp t st hd) tl) t1 k = _
    rw [ih (applyOp t st hd) (fun op hop => h op (List.mem_cons_of_mem _ hop)),
        smembersAt_applyOp_preserve st t t1 k hd (h hd (List.mem_cons_self _ _))]

theorem ne_of_data_head_ne (a b : String) (h : a.data.head? ≠ b.data.head?) : a ≠ b :=
  fun he => h (he ▸ rfl)

theorem subscribers_ne_promises (x y : String) :
    SUBSCRIBERS ++ x ≠ PROMISES ++ y := by
  apply ne_of_data_head_ne
  rw [String.data_append, String.data_append]
  rw [show SUBSCRIBERS.data = 's' :: "ubscribers::".data from rfl]
  rw [show PROMISES.data = '0' :: "9909e88-ca04-4868-a0a0-c94748df844f:::promises:".data from rfl]
  simp

theorem modify_ops_setPreserving (now : Nat) (salt n v k : String)
    (h : ∀ d : Nat, k ≠ PROMISES ++ toString (now + d)) :
    ∀ op ∈ modify_page_ops now salt n v, setPreserving k op := by
  intro op hop
  unfold modify_page_ops at hop
  simp only [List.cons_append, List.nil_append, List.mem_cons, List.mem_flatten,
    List.mem_map] at hop
  rcases hop with rfl | rfl | rfl | ⟨ops1, ⟨d, hd, hfd⟩, hop1⟩
  · exact trivial
  · exact trivial
  · exact trivial
  · subst hfd
    simp only [List.mem_cons, List.not_mem_nil, or_false] at hop1
    rcases hop1 with rfl | rfl
    · exact h d
    · exact h d

theorem hgetAt_hset_self (st : RState) (t : Nat) (k f v : String) :
    hgetAt (applyOp t st (.hset k f v)) k f = some v := by
  simp only [applyOp, hgetAt, hashUpsert, List.lookup, beq_self_eq_true]

theorem hgetAt_hset_ne (st : RState) (t : Nat) (k k1 f v : String) (h : k ≠ k1) :
    hgetAt (applyOp t st (.hset k1 f v)) k = hgetAt st k := by
  funext fld
  simp only [applyOp, hgetAt, lookup_cons_ne _ _ _ _ h, lookup_filter_ne _ _ _ h]

theorem hget_fold_hset_inv (subs : List String) (st : RState) (now : Nat) (A v B : String)
    (hst : hgetAt st (MESSAGES ++ B) A = some v) :
    hgetAt (subs.foldl (fun st2 s => applyOp now st2 (.hset (MESSAGES ++ s) A v)) st)
      (MESSAGES ++ B) A = some v := by
  induction subs generalizing st with
  | nil => exact hst
  | cons hd tl ih =>
    show hgetAt (tl.foldl _ (applyOp now st (.hset (MESSAGES ++ hd) A v))) _ _ = _
    apply ih
    by_cases h : MESSAGES ++ B = MESSAGES ++ hd
    · rw [h]
      exact hgetAt_hset_self _ _ _ _ _
    · rw [hgetAt_hset_ne _ _ _ _ _ _ h]
      exact hst

theorem hget_fold_hset (subs : List String) (st : RState) (now : Nat) (A v B : String)
    (hB : B ∈ subs) :
    hgetAt (subs.foldl (fun st2 s => applyOp now st2 (.hset (MESSAGES ++ s) A v)) st)
      (MESSAGES ++ B) A = some v := by
  induction subs generalizing st with
  | nil => cases hB
  | cons hd tl ih =>
    show hgetAt (tl.foldl _ (applyOp now st (.hset (MESSAGES ++ hd) A v))) _ _ = _
    rcases List.mem_cons.mp hB with rfl | hB2
    · exact hget_fold_hset_inv tl _ now A v B (hgetAt_hset_self _ _ _ _ _)
    · exact ih _ hB2

theorem mem_smembersAt_sadd (st : RState) (t : Nat) (k m : String) :
    m ∈ smembersAt (applyOp t st (.sadd k m)) t k := by
  cases hl : List.lookup k st.sets with
  | none =>
    simp only [applyOp, hl, smembersAt, List.lookup, beq_self_eq_true]
    simp [aliveAt]
  | some pr =>
    obtain ⟨ms, e⟩ := pr
    by_cases ha : aliveAt t e = true
    · by_cases hm : m ∈ ms
      · simp only [applyOp, hl, smembersAt, List.lookup, beq_self_eq_true]
        simp [ha, hm]
      · simp only [applyOp, hl, smembersAt, List.lookup, beq_self_eq_true]
        simp [ha, hm]
    · simp only [applyOp, hl, smembersAt, List.lookup, beq_self_eq_true, if_neg ha]
      simp [aliveAt]

theorem set_obscure_pass (st : RState) (now : Nat) (rndf : Rnd) (i0 : Nat) (d0 : Intent)
    (ndx : Nat) (n v : String) (wk? : Option String)
    (hval : is_valid_value v = true) (hname : is_valid_name n = true) :
    pipelined_set_obscure st now rndf i0 d0 [(ndx, some n, v, wk?)] =
      .ok { st := st, count := 0, d := d0, rejected := [], rnd := i0,
            residual := [(ndx, n, v, wk?)] } := by
  have hloop : obscure_loop rndf now
      { rnd := i0, count := 0, d := d0, rejected := [], ops := [], residual := [] }
      [(ndx, some n, v, wk?)] =
    .ok { rnd := i0, count := 0, d := d0, rejected := [], ops := [],
          residual := [] ++ [(ndx, n, v, wk?)] } := by
    simp only [obscure_loop, hval, hname, Bool.true_eq_false, if_false]
  rw [pipelined_set_obscure, hloop, except_ok_bind]
  rfl

theorem set_new_pass (st : RState) (now : Nat) (rndf : Rnd) (i0 : Nat) (d0 : Intent)
    (ndx : Nat) (n v K : String) (wk? : Option String)
    (hown : hgetAt st OWNERSHIP n = some K) :
    pipelined_set_new st now rndf i0 d0 [(ndx, n, v, wk?)] =
      { st := st, count := 0, d := d0, rejected := [], rnd := i0,
        residual := [(ndx, n, v, wk?)] } := by
  have hloop : new_loop rndf now
      { rnd := i0, count := 0, d := d0, rejected := [], ops := [], residual := [] }
      [(true, ndx, n, v, wk?)] =
    { rnd := i0, count := 0, d := d0, rejected := [], ops := [],
      residual := [] ++ [(ndx, n, v, wk?)] } := by
    simp only [new_loop, if_true]
  rw [pipelined_set_new]
  simp only [List.map_cons, List.map_nil, hown, Option.isSome_some, hloop]
  rfl

theorem set_existing_accept (st : RState) (now : Nat) (rndf : Rnd) (i0 : Nat) (d0 : Intent)
    (ndx : Nat) (n v K : String) (hown : hgetAt st OWNERSHIP n = some K) :
    pipelined_set_existing st now rndf i0 d0 [(ndx, n, v, some K)] =
      .ok { st := applyOps now st (modify_page_ops now (rndf i0) n v), count := 1,
            d := { modify_page_intent (rndf i0) ndx n v d0 with write_key := some (some K) },
            rejected := [], rnd := i0 + 1, residual := [] } := by
  have hloop : existing_loop rndf now
      { rnd := i0, count := 0, d := d0, rejected := [], ops := [], residual := [] }
      [(some K, ndx, n, v, some K)] =
    .ok { rnd := i0 + 1, count := 0 + 1,
          d := { modify_page_intent (rndf i0) ndx n v d0 with
                 write_key := some (some K) },
          rejected := [], ops := [] ++ modify_page_ops now (rndf i0) n v,
          residual := [] } := by
    simp only [existing_loop, beq_self_eq_true, if_true, except_ok_bind, except_pure]
  have h1 : pipelined_set_existing st now rndf i0 d0 [(ndx, n, v, some K)] =
      .ok { st := applyOps now st ([] ++ modify_page_ops now (rndf i0) n v),
            count := 0 + 1,
            d := { modify_page_intent (rndf i0) ndx n v d0 with
                   write_key := some (some K) },
            rejected := [], rnd := i0 + 1, residual := [] } := by
    rw [pipelined_set_existing]
    simp only [List.map_cons, List.map_nil, hown]
    rw [hloop]
    rfl
  rw [h1, List.nil_append]

/-- C8: after subscribing `B` to `A`, a successful singular set of `A` (an
existing name with the matching write key) places the new value in `B`'s
mailbox hash under field key `A`. -/
theorem c8_subscriber_fanout (st0 : RState) (now : Nat) (rndf : Rnd) (d0 : Intent)
    (A B v K : String)
    (hname : is_valid_name A = true) (hval : is_valid_value v = true)
    (hown : hgetAt st0 OWNERSHIP A = some K) :
    ∃ st2 out,
      rediz_set_single (rediz_subscribe st0 now A B) now rndf d0 (some A) v (some K) =
        .ok (st2, out) ∧
      hgetAt st2 (MESSAGES ++ B) A = some v := by
  set stS := rediz_subscribe st0 now A B with hstS
  have hown1 : hgetAt stS OWNERSHIP A = some K := by
    rw [hstS]
    exact hown
  have h1 := set_obscure_pass stS now rndf 0 d0 0 A v (some K) hval hname
  have h2 := set_new_pass stS now rndf 0 d0 0 A v K (some K) hown1
  have h3 := set_existing_accept stS now rndf 0 d0 0 A v K hown1
  set st3 := applyOps now stS (modify_page_ops now (rndf 0) A v) with hst3
  set d3 : Intent :=
    { modify_page_intent (rndf 0) 0 A v d0 with write_key := some (some K) } with hd3
  have hB3 : B ∈ smembersAt st3 now (SUBSCRIBERS ++ A) := by
    rw [hst3, smembersAt_applyOps_preserve _ _ _ _ _
      (modify_ops_setPreserving now (rndf 0) A v _ (fun d => subscribers_ne_promises A _))]
    rw [hstS]
    exact mem_smembersAt_sadd st0 now (SUBSCRIBERS ++ A) B
  have hd3name : d3.name = some A := by rw [hd3]; rfl
  have hd3value : d3.value = some v := by rw [hd3]; rfl
  have hd3wk : d3.write_key = some (some K) := by rw [hd3]
  have hcore : rediz_set_core stS now rndf 0 d0 [some A] [v] [some K] =
      .ok (propagate_to_subscribers st3 now (List.replicate 1 A) (List.replicate 1 v),
           { count := 0 + 0 + 1, d := d3, rejected := [] ++ ([] ++ []) }) := by
    simp only [rediz_set_core, List.length_cons, List.length_nil, List.range_succ,
      List.range_zero, List.nil_append, zip4, List.zip_cons_cons, List.zip_nil_right,
      List.map_cons, List.map_nil]
    rw [h1, except_ok_bind]
    dsimp only
    rw [h2]
    dsimp only
    rw [h3, except_ok_bind]
    dsimp only
    rw [if_neg one_ne_zero, hd3name, hd3value]
    dsimp only [pyGetKey]
    rfl
  have hout : coerce_outputs (0 + 0 + 1) d3 = .ok [(A, some K)] := by
    show coerce_outputs 1 d3 = .ok [(A, some K)]
    rw [coerce_outputs]
    rw [show List.replicate 1 () = [()] from rfl]
    rw [show ([()] : List Unit).mapM (fun _ => do
      let n ← pyGetKey d3.name "name"
      let wk ← pyGetKey d3.write_key "write_key"
      pure (n, wk)) = (do
        let n ← pyGetKey d3.name "name"
        let wk ← pyGetKey d3.write_key "write_key"
        pure [(n, wk)] : Except PyErr (List (String × Option String))) from rfl]
    rw [hd3name, hd3wk]
    rfl
  refine ⟨propagate_to_subscribers st3 now (List.replicate 1 A) (List.replicate 1 v),
          (A, some K), ?_, ?_⟩
  · rw [rediz_set_single]
    simp only [coerce_inputs, List.map_cons, List.map_nil]
    rw [hcore, except_ok_bind]
    dsimp only
    rw [hout, except_ok_bind]
    rfl
  · have hprop : propagate_to_subscribers st3 now (List.replicate 1 A) (List.replicate 1 v) =
        (smembersAt st3 now (SUBSCRIBERS ++ A)).foldl
          (fun st2 s => applyOp now st2 (.hset (MESSAGES ++ s) A v)) st3 := rfl
    rw [hprop]
    exact hget_fold_hset _ _ now A v B hB3

/-- Witness for C8: on a store owning `a.json` with key `K0`, subscribing
`b.json` and then setting `a.json` to `42` places `42` in `b.json`'s
mailbox under field `a.json`. -/
theorem c8_witness :
    is_valid_name "a.json" = true ∧ is_valid_value "42" = true ∧
    hgetAt { hashes := [(OWNERSHIP, [("a.json", "K0")])] } OWNERSHIP "a.json" = some "K0" ∧
    ∃ st2 out,
      rediz_set_single
          (rediz_subscribe { hashes := [(OWNERSHIP, [("a.json", "K0")])] } 50 "a.json" "b.json")
          50 (fun _ => "salt") {} (some "a.json") "42" (some "K0") = .ok (st2, out) ∧
      hgetAt st2 (MESSAGES ++ "b.json") "a.json" = some "42" :=
  ⟨by decide, by decide, by decide,
   c8_subscriber_fanout { hashes := [(OWNERSHIP, [("a.json", "K0")])] } 50 (fun _ => "salt") {}
     "a.json" "b.json" "42" "K0" (by decide) (by decide) (by decide)⟩

-- C3 helper lemmas -------------------------------------------------

theorem eq_ok_of_toOption {ε α : Type} (x : Except ε α) (r : α) (h : x.toOption = some r) :
    x = .ok r := by
  cases x with
  | ok a => simp [Except.toOption] at h; rw [h]
  | error e => simp [Except.toOption] at h

theorem lookup_mem {β : Type} (l : List (String × β)) (k : String) (b : β)
    (h : l.lookup k = some b) : (k, b) ∈ l := by
  induction l with
  | nil => cases h
  | cons hd tl ih =>
    obtain ⟨k1, b1⟩ := hd
    rw [List.lookup] at h
    cases hk : k == k1 with
    | true =>
      rw [hk] at h
      rw [show k = k1 from eq_of_beq hk, show b1 = b from Option.some.inj h]
      exact List.mem_cons_self _ _
    | false =>
      rw [hk] at h
      exact List.mem_cons_of_mem _ (ih h)

theorem mem_smembersAt_entries (st : RState) (t : Nat) (c x : String)
    (hx : x ∈ smembersAt st t c) : ∃ p ∈ st.sets, x ∈ p.2.1 := by
  unfold smembersAt at hx
  split at hx
  next ms e heq =>
    split at hx
    · exact ⟨(c, (ms, e)), lookup_mem _ _ _ heq, hx⟩
    · cases hx
  next => cases hx

theorem mapM_loop_ok {α β : Type} (f : α → Except PyErr β) (g : α → β)
    (l : List α) (acc : List β) (h : ∀ x ∈ l, f x = .ok (g x)) :
    List.mapM.loop f l acc = .ok (acc.reverse ++ l.map g) := by
  induction l generalizing acc with
  | nil => rw [List.mapM.loop]; simp [except_pure]
  | cons hd tl ih =>
    rw [List.mapM.loop, h hd (List.mem_cons_self _ _), except_ok_bind,
        ih (g hd :: acc) (fun x hx => h x (List.mem_cons_of_mem _ hx))]
    simp

theorem pyMget_ok (st : RState) (now : Nat) (ks : List String) (h : ks ≠ []) :
    pyMget st now ks = .ok (ks.map (rget st now)) := by
  unfold pyMget
  cases ks with
  | nil => exact absurd rfl h
  | cons a t => rfl

theorem pyMset_ok (st : RState) (now : Nat) (mapping : List (String × Option String))
    (h : mapping ≠ []) (hn : mapping.any (fun p => p.2.isNone) = false) :
    pyMset st now mapping =
      .ok (mapping.foldl (fun s p => applyOp now s (.setx p.1 (p.2.getD "") none)) st) := by
  unfold pyMset
  cases mapping with
  | nil => exact absurd rfl h
  | cons a t => simp only [hn, Bool.false_eq_true, if_false]

theorem pyDict_foldl_subset (l acc : List (String × Option String))
    (p : String × Option String)
    (hp : p ∈ l.foldl (fun acc q => (acc.filter (fun r => r.1 ≠ q.1)) ++ [q]) acc) :
    p ∈ acc ∨ p ∈ l := by
  induction l generalizing acc with
  | nil => exact Or.inl hp
  | cons hd tl ih =>
    rcases ih _ hp with hacc | htl
    · rcases List.mem_append.mp hacc with hf | hs
      · exact Or.inl (List.mem_of_mem_filter hf)
      · rw [List.mem_singleton.mp hs]
        exact Or.inr (List.mem_cons_self _ _)
    · exact Or.inr (List.mem_cons_of_mem _ htl)

theorem pyDict_subset (l : List (String × Option String)) (p : String × Option String)
    (hp : p ∈ pyDict l) : p ∈ l := by
  rcases pyDict_foldl_subset l [] p hp with h | h
  · cases h
  · exact h

theorem pyDict_foldl_key_mem (l acc : List (String × Option String)) (k : String)
    (hk : k ∈ acc.map Prod.fst ∨ k ∈ l.map Prod.fst) :
    k ∈ (l.foldl (fun acc q => (acc.filter (fun r => r.1 ≠ q.1)) ++ [q]) acc).map Prod.fst := by
  induction l generalizing acc with
  | nil =>
    rcases hk with h | h
    · exact h
    · cases h
  | cons hd tl ih =>
    apply ih
    rcases hk with hacc | hl
    · by_cases he : k = hd.1
      · left
        rw [List.map_append, List.mem_append]
        right
        rw [he]
        simp
      · left
        rcases List.mem_map.mp hacc with ⟨q, hq, hq1⟩
        rw [List.map_append, List.mem_append]
        left
        apply List.mem_map.mpr
        refine ⟨q, List.mem_filter.mpr ⟨hq, ?_⟩, hq1⟩
        simp only [decide_eq_true_eq]
        rw [hq1]
        exact he
    · rw [List.map_cons, List.mem_cons] at hl
      rcases hl with rfl | h2
      · left
        rw [List.map_append, List.mem_append]
        right
        simp
      · exact Or.inr h2

theorem pyDict_key_mem (l : List (String × Option String)) (k : String)
    (hk : k ∈ l.map Prod.fst) : k ∈ (pyDict l).map Prod.fst :=
  pyDict_foldl_key_mem l [] k (Or.inr hk)

theorem pyDict_ne_nil (l : List (String × Option String)) (h : l ≠ []) :
    pyDict l ≠ [] := by
  cases l with
  | nil => exact absurd rfl h
  | cons hd tl =>
    intro h0
    have hm := pyDict_key_mem (hd :: tl) hd.1 (by simp)
    rw [h0] at hm
    cases hm

theorem rget_setx_self (st : RState) (t1 t : Nat) (k v : String) :
    rget (applyOp t1 st (.setx k v none)) t k = some v := by
  simp only [applyOp, rget, List.lookup, beq_self_eq_true]
  rfl

theorem rget_setx_ne (st : RState) (t1 t : Nat) (k k1 v : String) (ttl : Option Nat)
    (h : k ≠ k1) :
    rget (applyOp t1 st (.setx k1 v ttl)) t k = rget st t k := by
  simp only [applyOp, rget, lookup_cons_ne _ _ _ _ h, lookup_filter_ne _ _ _ h]

theorem rget_delKeys_notmem (st : RState) (t1 t : Nat) (k : String) (ks : List String)
    (h : k ∉ ks) :
    rget (applyOp t1 st (.delKeys ks)) t k = rget st t k := by
  simp only [applyOp, rget, lookup_filter_notmem _ _ _ h]

theorem rget_msetfold_inv (mapping : List (String × Option String)) (st : RState)
    (t1 t : Nat) (k v : String)
    (hall : ∀ p ∈ mapping, p.2 = some v) (hst : rget st t k = some v) :
    rget (mapping.foldl (fun s p => applyOp t1 s (.setx p.1 (p.2.getD "") none)) st) t k
      = some v := by
  induction mapping generalizing st with
  | nil => exact hst
  | cons hd tl ih =>
    show rget (tl.foldl _ (applyOp t1 st (.setx hd.1 (hd.2.getD "") none))) t k = some v
    apply ih _ (fun p hp => hall p (List.mem_cons_of_mem _ hp))
    by_cases he : k = hd.1
    · subst he
      rw [show hd.2.getD "" = v by rw [hall hd (List.mem_cons_self _ _)]; rfl]
      exact rget_setx_self _ _ _ _ _
    · rw [rget_setx_ne _ _ _ _ _ _ _ he]
      exact hst

theorem rget_msetfold_mem (mapping : List (String × Option String)) (st : RState)
    (t1 t : Nat) (k v : String)
    (hall : ∀ p ∈ mapping, p.2 = some v) (hk : k ∈ mapping.map Prod.fst) :
    rget (mapping.foldl (fun s p => applyOp t1 s (.setx p.1 (p.2.getD "") none)) st) t k
      = some v := by
  induction mapping generalizing st with
  | nil => cases hk
  | cons hd tl ih =>
    show rget (tl.foldl _ (applyOp t1 st (.setx hd.1 (hd.2.getD "") none))) t k = some v
    rw [List.map_cons, List.mem_cons] at hk
    rcases hk with rfl | h2
    · apply rget_msetfold_inv tl _ t1 t _ v (fun p hp => hall p (List.mem_cons_of_mem _ hp))
      rw [show hd.2.getD "" = v by rw [hall hd (List.mem_cons_self _ _)]; rfl]
      exact rget_setx_self _ _ _ _ _
    · exact ih _ (fun p hp => hall p (List.mem_cons_of_mem _ hp)) h2

theorem rget_msetfold_notmem (mapping : List (String × Option String)) (st : RState)
    (t1 t : Nat) (k : String) (hk : k ∉ mapping.map Prod.fst) :
    rget (mapping.foldl (fun s p => applyOp t1 s (.setx p.1 (p.2.getD "") none)) st) t k
      = rget st t k := by
  induction mapping generalizing st with
  | nil => rfl
  | cons hd tl ih =>
    show rget (tl.foldl _ (applyOp t1 st (.setx hd.1 (hd.2.getD "") none))) t k = rget st t k
    rw [ih _ (fun h => hk (List.mem_cons_of_mem _ h)),
        rget_setx_ne _ _ _ _ _ _ _
          (fun he => hk (by rw [List.map_cons]; exact List.mem_cons.mpr (Or.inl he)))]

theorem promises_append_head (y : String) : (PROMISES ++ y).data.head? = some '0' := by
  rw [String.data_append]
  rw [show PROMISES.data = '0' :: "9909e88-ca04-4868-a0a0-c94748df844f:::promises:".data
    from rfl]
  rfl

theorem ne_promises_of_head (a y : String) (h : a.data.head? ≠ some '0') :
    a ≠ PROMISES ++ y :=
  ne_of_data_head_ne a _ (by rw [promises_append_head]; exact h)

theorem notmem_candidates_of_head (a : String) (h : a.data.head? ≠ some '0')
    (now lb : Nat) :
    a ∉ (List.range lb).map (fun s => PROMISES ++ toString (now - s)) := by
  intro hmem
  rcases List.mem_map.mp hmem with ⟨s, _, hs⟩
  exact ne_promises_of_head a _ h hs.symm


theorem promiseWrite_copy_lookup :
    List.lookup "s:n.json" promiseWriteState.strs =
      some ("v", some (100 + min (max (2*60*60) (cost_based_ttl_nat "v")) (60*60*24))) := rfl

theorem c3_copy_rget (lb exec : Nat) (hexec : exec ≤ 3759) :
    rget (c3_st1 promiseWriteState lb exec) exec "s:n.json" = some "v" := by
  rw [rget_delKeys_notmem _ _ _ _ _ (notmem_candidates_of_head _ (by decide) exec lb)]
  have hlive : aliveAt exec
      (some (100 + min (max (2*60*60) (cost_based_ttl_nat "v")) (60*60*24))) = true := by
    simp only [aliveAt, decide_eq_true_eq]
    omega
  simp only [rget, promiseWrite_copy_lookup, hlive, if_true]

theorem c3_run (st : RState) (v : String) (lb exec : Nat) (hlb : lb ≠ 0)
    (hLne : c3_pool st lb exec ≠ [])
    (hparse : ∀ x ∈ c3_pool st lb exec, split_promise x = .ok (promiseParts x))
    (hvals : ∀ x ∈ c3_pool st lb exec,
      rget (c3_st1 st lb exec) exec ((promiseParts x).1) = some v) :
    admin_promises st exec lb =
      .ok (c3_stOut st lb exec, (c3_mapping st lb exec).length) ∧
    (∀ p ∈ c3_mapping st lb exec, p.2 = some v) := by
  have hmapM : List.mapM.loop split_promise (c3_pool st lb exec) [] =
      .ok ((c3_pool st lb exec).map promiseParts) := by
    rw [mapM_loop_ok split_promise promiseParts _ _ hparse]
    rfl
  have hsrcne : ((c3_pool st lb exec).map promiseParts).map (fun p => p.1) ≠ [] := by
    intro h0
    rw [List.map_eq_nil_iff, List.map_eq_nil_iff] at h0
    exact hLne h0
  have hmget : pyMget (c3_st1 st lb exec) exec (((c3_pool st lb exec).map promiseParts).map
      (fun p => p.1)) = .ok ((((c3_pool st lb exec).map promiseParts).map
      (fun p => p.1)).map (rget (c3_st1 st lb exec) exec)) :=
    pyMget_ok _ _ _ hsrcne
  have hvalsall : ∀ o ∈ (((c3_pool st lb exec).map promiseParts).map
      (fun p => p.1)).map (rget (c3_st1 st lb exec) exec), o = some v := by
    intro o ho
    rcases List.mem_map.mp ho with ⟨srcx, hsrcx, rfl⟩
    rcases List.mem_map.mp hsrcx with ⟨pp, hpp, rfl⟩
    rcases List.mem_map.mp hpp with ⟨x, hxL, rfl⟩
    exact hvals x hxL
  have hallmap : ∀ p ∈ c3_mapping st lb exec, p.2 = some v := by
    intro p hp
    obtain ⟨a, b⟩ := p
    exact hvalsall b (List.of_mem_zip (pyDict_subset _ _ hp)).2
  have hnonone : (c3_mapping st lb exec).any (fun p => p.2.isNone) = false := by
    apply List.any_eq_false.mpr
    intro p hp
    rw [hallmap p hp]
    simp
  have hmapne : c3_mapping st lb exec ≠ [] := by
    apply pyDict_ne_nil
    intro h0
    have hlen := congrArg List.length h0
    rw [List.length_zip] at hlen
    simp only [List.length_map, List.length_nil, min_self] at hlen
    exact hLne (List.length_eq_zero.mp hlen)
  have hmset : pyMset (c3_st1 st lb exec) exec (c3_mapping st lb exec)
      = .ok (c3_stOut st lb exec) :=
    pyMset_ok _ _ _ hmapne hnonone
  refine ⟨?_, hallmap⟩
  simp only [admin_promises]
  rw [if_neg (by
    simp only [List.isEmpty_eq_true, List.map_eq_nil_iff, List.range_eq_nil]
    exact hlb)]
  rw [pyDeleteKeys_ok _ _ _ (by
    simp only [Ne, List.map_eq_nil_iff, List.range_eq_nil]
    exact hlb), except_ok_bind]
  rw [show ∀ l : List String, l.mapM split_promise = List.mapM.loop split_promise l []
    from fun _ => rfl]
  rw [hmapM, except_ok_bind]
  rw [hmget, except_ok_bind]
  rw [hmset, except_ok_bind]
  rfl

theorem splitFirst_arrow_none (cs : List Char) (h : '>' ∉ cs) :
    splitFirst ['-', '>'] cs = none := by
  induction cs with
  | nil => rfl
  | cons c cs ih =>
    rw [splitFirst]
    have hpre : isPrefixList ['-', '>'] (c :: cs) = false := by
      rw [isPrefixList]
      cases cs with
      | nil => rw [isPrefixList]; simp
      | cons c2 rest =>
        rw [isPrefixList]
        have h2 : ('>' : Char) ≠ c2 := fun he => h (he ▸ List.mem_cons_of_mem _
          (List.mem_cons_self _ _))
        simp [h2]
    rw [hpre]
    simp only [Bool.false_eq_true, if_false]
    rw [ih (fun hm => h (List.mem_cons_of_mem _ hm))]

theorem splitFirst_arrow_insert (a b : List Char) (ha : '>' ∉ a) :
    splitFirst ['-', '>'] (a ++ '-' :: '>' :: b) = some (a, b) := by
  induction a with
  | nil =>
    rw [List.nil_append, splitFirst]
    have hpre : isPrefixList ['-', '>'] ('-' :: '>' :: b) = true := by
      rw [isPrefixList, isPrefixList, isPrefixList]
      simp
    rw [hpre]
    rfl
  | cons c a ih =>
    rw [List.cons_append, splitFirst]
    have hpre : isPrefixList ['-', '>'] (c :: (a ++ '-' :: '>' :: b)) = false := by
      rw [isPrefixList]
      cases a with
      | nil =>
        rw [List.nil_append, isPrefixList]
        simp
      | cons c2 rest =>
        rw [List.cons_append, isPrefixList]
        have h2 : ('>' : Char) ≠ c2 := fun he => ha (he ▸ List.mem_cons_of_mem _
          (List.mem_cons_self _ _))
        simp [h2]
    rw [hpre]
    simp only [Bool.false_eq_true, if_false]
    rw [ih (fun hm => ha (List.mem_cons_of_mem _ hm))]

theorem pySplitFuel_nosplit (fuel : Nat) (b : List Char)
    (h : splitFirst ['-', '>'] b = none) :
    pySplitFuel ['-', '>'] fuel b = [b] := by
  cases fuel with
  | zero => rfl
  | succ n => rw [pySplitFuel, h]

theorem pySplit_arrow (a b : List Char) (ha : '>' ∉ a) (hb : '>' ∉ b) :
    pySplit ['-', '>'] (a ++ '-' :: '>' :: b) = [a, b] := by
  rw [pySplit, pySplitFuel, splitFirst_arrow_insert a b ha]
  show a :: pySplitFuel ['-', '>'] (a ++ '-' :: '>' :: b).length b = [a, b]
  rw [pySplitFuel_nosplit _ _ (splitFirst_arrow_none b hb)]

theorem split2_arrow (x y : String) (hx : '>' ∉ x.data) (hy : '>' ∉ y.data) :
    split2 "->" (x ++ "->" ++ y) = .ok (x, y) := by
  unfold split2
  have hdata : (x ++ "->" ++ y).data = x.data ++ '-' :: '>' :: y.data := by
    rw [String.data_append, String.data_append, List.append_assoc]
    rfl
  rw [show ("->" : String).data = ['-', '>'] from rfl, hdata, pySplit_arrow x.data y.data hx hy]

theorem split_promise_arrow (x y : String) (hx : '>' ∉ x.data) (hy : '>' ∉ y.data) :
    split_promise (x ++ "->" ++ y) = .ok (x, y) := by
  unfold split_promise
  rw [split2_arrow x y hx hy]

theorem promiseParts_arrow (x y : String) (hx : '>' ∉ x.data) (hy : '>' ∉ y.data) :
    promiseParts (x ++ "->" ++ y) = (x, y) := by
  unfold promiseParts
  rw [split_promise_arrow x y hx hy]
  rfl

theorem append_colon_inj (a1 : List Char) (b1 : List Char) (a2 b2 : List Char)
    (h1 : ':' ∉ a1) (h2 : ':' ∉ a2)
    (he : a1 ++ ':' :: b1 = a2 ++ ':' :: b2) : a1 = a2 ∧ b1 = b2 := by
  induction a1 generalizing a2 with
  | nil =>
    cases a2 with
    | nil =>
      rw [List.nil_append, List.nil_append] at he
      exact ⟨rfl, (List.cons.inj he).2⟩
    | cons c a2 =>
      rw [List.nil_append, List.cons_append] at he
      obtain ⟨hc, _⟩ := List.cons.inj he
      have hm : ':' ∈ c :: a2 := by rw [← hc]; exact List.mem_cons_self _ _
      exact absurd hm h2
  | cons c a1 ih =>
    cases a2 with
    | nil =>
      rw [List.cons_append, List.nil_append] at he
      obtain ⟨hc, _⟩ := List.cons.inj he
      have hm : ':' ∈ c :: a1 := by rw [hc]; exact List.mem_cons_self _ _
      exact absurd hm h1
    | cons c2 a2 =>
      rw [List.cons_append, List.cons_append] at he
      obtain ⟨hc, hrest⟩ := List.cons.inj he
      obtain ⟨hA, hB⟩ := ih a2 (fun hm => h1 (List.mem_cons_of_mem _ hm))
        (fun hm => h2 (List.mem_cons_of_mem _ hm)) hrest
      exact ⟨by rw [hc, hA], hB⟩

theorem hasDoubleColon_cons_cons (l : List Char) :
    hasDoubleColon (':' :: ':' :: l) = true := by
  rw [hasDoubleColon]
  simp

theorem copy_ne_promises_append (salt name y : String) (hscol : ':' ∉ salt.data)
    (hdc : hasDoubleColon name.data = false) :
    salt ++ ":" ++ name ≠ PROMISES ++ y := by
  intro he
  have hd := congrArg String.data he
  have hL : (salt ++ ":" ++ name).data = salt.data ++ ':' :: name.data := by
    rw [String.data_append, String.data_append, List.append_assoc]
    rfl
  have hR : (PROMISES ++ y).data =
      "09909e88-ca04-4868-a0a0-c94748df844f".data ++
        ':' :: (':' :: ':' :: ("promises:".data ++ y.data)) := by
    rw [String.data_append]
    rw [show PROMISES.data = "09909e88-ca04-4868-a0a0-c94748df844f".data ++
      ':' :: ':' :: ':' :: "promises:".data from rfl]
    rw [List.append_assoc]
    rfl
  rw [hL, hR] at hd
  obtain ⟨_, hn⟩ := append_colon_inj _ _ _ _ hscol (by decide) hd
  rw [hn, hasDoubleColon_cons_cons] at hdc
  exact Bool.noConfusion hdc

theorem copy_notmem_candidates (salt name : String) (hscol : ':' ∉ salt.data)
    (hdc : hasDoubleColon name.data = false) (now lb : Nat) :
    (salt ++ ":" ++ name) ∉ (List.range lb).map (fun s => PROMISES ++ toString (now - s)) := by
  intro hmem
  rcases List.mem_map.mp hmem with ⟨s, _, hs⟩
  exact copy_ne_promises_append salt name _ hscol hdc hs.symm

theorem regexDecomp_no_gt (cs : List Char) (h : regexDecomp cs) : '>' ∉ cs := by
  obtain ⟨stem, suffix, rfl, _, _, hstem, _, hsuf⟩ := h
  intro hmem
  rcases List.mem_append.mp hmem with hs | hd
  · exact absurd (hstem _ hs) (by decide)
  · rcases List.mem_cons.mp hd with he | hs2
    · exact absurd he (by decide)
    · exact absurd (hsuf _ hs2) (by decide)

theorem valid_name_no_gt (name : String) (h : is_valid_name name = true) :
    '>' ∉ name.data := by
  unfold is_valid_name at h
  rw [Bool.and_eq_true] at h
  obtain ⟨hre, _⟩ := h
  simp only [nameRegexMatches] at hre
  intro hmem
  by_cases hlast : name.data.getLast? = some '\n'
  · rw [if_pos hlast] at hre
    rw [range_any_iff_regexDecomp] at hre
    have hsplit : name.data.dropLast ++ ['\n'] = name.data :=
      List.dropLast_append_getLast? _ hlast
    have hin : '>' ∈ name.data.dropLast := by
      rw [← hsplit] at hmem
      rcases List.mem_append.mp hmem with h1 | h2
      · exact h1
      · exact absurd (List.mem_singleton.mp h2) (by decide)
    exact regexDecomp_no_gt _ hre hin
  · rw [if_neg hlast] at hre
    rw [range_any_iff_regexDecomp] at hre
    exact regexDecomp_no_gt _ hre hmem

theorem valid_name_no_dc (name : String) (h : is_valid_name name = true) :
    hasDoubleColon name.data = false := by
  unfold is_valid_name at h
  rw [Bool.and_eq_true] at h
  obtain ⟨_, hdc⟩ := h
  rw [Bool.not_eq_true'] at hdc
  exact hdc

theorem sets_members_applyOp (M : String → Prop) (t : Nat) (st : RState) (op : RedisOp)
    (h0 : ∀ p ∈ st.sets, ∀ x ∈ p.2.1, M x) (hop : saddMembersIn M op) :
    ∀ p ∈ (applyOp t st op).sets, ∀ x ∈ p.2.1, M x := by
  cases op with
  | setx a b c => exact h0
  | xadd a b => exact h0
  | hset a b c => exact h0
  | hdel a b =>
    cases hl : List.lookup a st.hashes with
    | none => simp only [applyOp, hl]; exact h0
    | some fields => simp only [applyOp, hl]; exact h0
  | sadd k m =>
    intro p hp x hx
    cases hl : List.lookup k st.sets with
    | none =>
      simp only [applyOp, hl] at hp
      rcases List.mem_cons.mp hp with rfl | hp2
      · rcases List.mem_singleton.mp hx with rfl
        exact hop
      · exact h0 _ (List.mem_of_mem_filter hp2) x hx
    | some pr =>
      obtain ⟨ms, e⟩ := pr
      have hms : ∀ y ∈ ms, M y := h0 _ (lookup_mem _ _ _ hl)
      simp only [applyOp, hl] at hp
      rcases List.mem_cons.mp hp with rfl | hp2
      · by_cases ha : aliveAt t e = true
        · rw [if_pos ha] at hx
          by_cases hm : m ∈ ms
          · rw [if_pos hm] at hx
            exact hms x hx
          · rw [if_neg hm] at hx
            rcases List.mem_append.mp hx with hx1 | hx2
            · exact hms x hx1
            · rcases List.mem_singleton.mp hx2 with rfl
              exact hop
        · rw [if_neg ha] at hx
          rcases List.mem_singleton.mp hx with rfl
          exact hop
      · exact h0 _ (List.mem_of_mem_filter hp2) x hx
  | srem k m =>
    intro p hp x hx
    cases hl : List.lookup k st.sets with
    | none =>
      simp only [applyOp, hl] at hp
      exact h0 p hp x hx
    | some pr =>
      obtain ⟨ms, e⟩ := pr
      simp only [applyOp, hl] at hp
      rcases List.mem_cons.mp hp with rfl | hp2
      · exact h0 _ (lookup_mem _ _ _ hl) x (List.mem_of_mem_filter hx)
      · exact h0 _ (List.mem_of_mem_filter hp2) x hx
  | expire k ttl =>
    intro p hp x hx
    cases hl : List.lookup k st.sets with
    | some pr =>
      obtain ⟨ms, e⟩ := pr
      simp only [applyOp, hl, Option.isSome_some, if_true] at hp
      rcases List.mem_cons.mp hp with rfl | hp2
      · exact h0 _ (lookup_mem _ _ _ hl) x hx
      · exact h0 _ (List.mem_of_mem_filter hp2) x hx
    | none =>
      cases hl2 : List.lookup k st.strs with
      | none =>
        simp only [applyOp, hl, hl2, Option.isSome_none, Bool.false_eq_true, if_false] at hp
        exact h0 p hp x hx
      | some pr =>
        simp only [applyOp, hl, hl2, Option.isSome_none, Bool.false_eq_true, if_false] at hp
        exact h0 p hp x hx
  | delKeys ks =>
    intro p hp x hx
    exact h0 _ (List.mem_of_mem_filter hp) x hx

theorem sets_members_applyOps (M : String → Prop) (t : Nat) (ops : List RedisOp)
    (st : RState) (h0 : ∀ p ∈ st.sets, ∀ x ∈ p.2.1, M x)
    (hops : ∀ op ∈ ops, saddMembersIn M op) :
    ∀ p ∈ (applyOps t st ops).sets, ∀ x ∈ p.2.1, M x := by
  induction ops generalizing st with
  | nil => exact h0
  | cons hd tl ih =>
    show ∀ p ∈ (applyOps t (applyOp t st hd) tl).sets, ∀ x ∈ p.2.1, M x
    exact ih (applyOp t st hd)
      (sets_members_applyOp M t st hd h0 (hops hd (List.mem_cons_self _ _)))
      (fun op hop => hops op (List.mem_cons_of_mem _ hop))

theorem pageWrite_sets_members (now : Nat) (salt name value : String) :
    ∀ p ∈ (pageWriteState now salt name value).sets, ∀ x ∈ p.2.1,
      ∃ d ∈ DELAY_SECONDS,
        x = (salt ++ ":" ++ name) ++ "->" ++ (DELAYED ++ toString d ++ ":" ++ name) := by
  apply sets_members_applyOps
  · intro p hp
    cases hp
  · intro op hop
    unfold modify_page_ops at hop
    simp only [List.cons_append, List.nil_append, List.mem_cons, List.mem_flatten,
      List.mem_map] at hop
    rcases hop with rfl | rfl | rfl | ⟨ops1, ⟨d, hd, hfd⟩, hop1⟩
    · exact trivial
    · exact trivial
    · exact trivial
    · subst hfd
      simp only [List.mem_cons, List.not_mem_nil, or_false] at hop1
      rcases hop1 with rfl | rfl
      · exact ⟨d, hd, rfl⟩
      · exact trivial

theorem lookup_expire_hit (st : RState) (now : Nat) (k : String) (ttl : Nat)
    (ms : List String) (e : Option Nat) (hl : st.sets.lookup k = some (ms, e)) :
    (applyOp now st (.expire k ttl)).sets.lookup k = some (ms, some (now + ttl)) := by
  simp only [applyOp, hl, Option.isSome_some, if_true, List.lookup, beq_self_eq_true]

theorem bucketState_establish (st : RState) (now bound : Nat) (key member : String)
    (ttl : Nat) (hb : bound ≤ ttl) :
    bucketState key member now bound
      (applyOp now (applyOp now st (.sadd key member)) (.expire key ttl)) := by
  have h1 : ∃ ms e0, (applyOp now st (.sadd key member)).sets.lookup key = some (ms, e0) ∧
      member ∈ ms := by
    cases hl : List.lookup key st.sets with
    | none =>
      refine ⟨[member], none, ?_, by simp⟩
      simp only [applyOp, hl, List.lookup, beq_self_eq_true]
    | some pr =>
      obtain ⟨ms, e⟩ := pr
      by_cases ha : aliveAt now e = true
      · by_cases hm : member ∈ ms
        · refine ⟨ms, e, ?_, hm⟩
          simp only [applyOp, hl, if_pos ha, if_pos hm, List.lookup, beq_self_eq_true]
        · refine ⟨ms ++ [member], e, ?_, by simp⟩
          simp only [applyOp, hl, if_pos ha, if_neg hm, List.lookup, beq_self_eq_true]
      · refine ⟨[member], none, ?_, by simp⟩
        simp only [applyOp, hl, if_neg ha, List.lookup, beq_self_eq_true]
  obtain ⟨ms, e0, hl1, hm1⟩ := h1
  exact ⟨ms, some (now + ttl), lookup_expire_hit _ _ _ _ _ _ hl1, hm1,
    Or.inr ⟨ttl, hb, rfl⟩⟩

theorem bucketState_preserve_sadd (st : RState) (now bound : Nat) (key member : String)
    (k m : String) (hbpos : 1 ≤ bound)
    (hQ : bucketState key member now bound st) :
    bucketState key member now bound (applyOp now st (.sadd k m)) := by
  obtain ⟨ms, e, hl, hm, he⟩ := hQ
  by_cases hk : k = key
  · subst hk
    have ha : aliveAt now e = true := by
      rcases he with rfl | ⟨ttl, httl, rfl⟩
      · rfl
      · simp only [aliveAt, decide_eq_true_eq]
        omega
    by_cases hmm : m ∈ ms
    · refine ⟨ms, e, ?_, hm, he⟩
      simp only [applyOp, hl, if_pos ha, if_pos hmm, List.lookup, beq_self_eq_true]
    · refine ⟨ms ++ [m], e, ?_, List.mem_append.mpr (Or.inl hm), he⟩
      simp only [applyOp, hl, if_pos ha, if_neg hmm, List.lookup, beq_self_eq_true]
  · refine ⟨ms, e, ?_, hm, he⟩
    simp only [applyOp]
    rw [lookup_cons_ne _ _ _ _ (fun h => hk h.symm),
        lookup_filter_ne _ _ _ (fun h => hk h.symm), hl]

theorem bucketState_preserve_expire (st : RState) (now bound : Nat) (key member : String)
    (k : String) (ttl : Nat) (httl : bound ≤ ttl)
    (hQ : bucketState key member now bound st) :
    bucketState key member now bound (applyOp now st (.expire k ttl)) := by
  obtain ⟨ms, e, hl, hm, he⟩ := hQ
  by_cases hk : k = key
  · subst hk
    exact ⟨ms, some (now + ttl), lookup_expire_hit _ _ _ _ _ _ hl, hm,
      Or.inr ⟨ttl, httl, rfl⟩⟩
  · cases hl2 : List.lookup k st.sets with
    | some pr =>
      obtain ⟨ms2, e2⟩ := pr
      refine ⟨ms, e, ?_, hm, he⟩
      simp only [applyOp, hl2, Option.isSome_some, if_true]
      rw [lookup_cons_ne _ _ _ _ (fun h => hk h.symm),
          lookup_filter_ne _ _ _ (fun h => hk h.symm), hl]
    | none =>
      cases hl3 : List.lookup k st.strs with
      | none =>
        refine ⟨ms, e, ?_, hm, he⟩
        simp only [applyOp, hl2, hl3, Option.isSome_none, Bool.false_eq_true, if_false]
        exact hl
      | some pr =>
        refine ⟨ms, e, ?_, hm, he⟩
        simp only [applyOp, hl2, hl3, Option.isSome_none, Bool.false_eq_true, if_false]
        exact hl

theorem bucketState_preserve_ops (ops : List RedisOp) (st : RState)
    (now bound : Nat) (key member : String) (hbpos : 1 ≤ bound)
    (hops : ∀ op ∈ ops, bucketSafe bound op)
    (hQ : bucketState key member now bound st) :
    bucketState key member now bound (applyOps now st ops) := by
  induction ops generalizing st with
  | nil => exact hQ
  | cons hd tl ih =>
    show bucketState key member now bound (applyOps now (applyOp now st hd) tl)
    refine ih (applyOp now st hd) (fun op hop => hops op (List.mem_cons_of_mem _ hop)) ?_
    have hsafe := hops hd (List.mem_cons_self _ _)
    cases hd with
    | sadd k m => exact bucketState_preserve_sadd st now bound key member k m hbpos hQ
    | expire k ttl => exact bucketState_preserve_expire st now bound key member k ttl hsafe hQ
    | setx a b c => exact absurd hsafe (by simp [bucketSafe])
    | srem a b => exact absurd hsafe (by simp [bucketSafe])
    | hset a b c => exact absurd hsafe (by simp [bucketSafe])
    | hdel a b => exact absurd hsafe (by simp [bucketSafe])
    | delKeys a => exact absurd hsafe (by simp [bucketSafe])
    | xadd a b => exact absurd hsafe (by simp [bucketSafe])

theorem sadd_strs (st : RState) (now : Nat) (k m : String) :
    (applyOp now st (.sadd k m)).strs = st.strs := rfl

theorem sadd_lookup_self (st : RState) (now : Nat) (k m : String) :
    (applyOp now st (.sadd k m)).sets.lookup k =
      some (match st.sets.lookup k with
            | some (ms, e) =>
                if aliveAt now e then (if m ∈ ms then ms else ms ++ [m], e) else ([m], none)
            | none => ([m], none)) := by
  simp only [applyOp, List.lookup, beq_self_eq_true]

theorem expire_strs_hit (st : RState) (now : Nat) (k : String) (ttl : Nat)
    (pr : List String × Option Nat) (hl : st.sets.lookup k = some pr) :
    (applyOp now st (.expire k ttl)).strs = st.strs := by
  obtain ⟨ms, e⟩ := pr
  simp only [applyOp, hl, Option.isSome_some, if_true]

theorem pair_strs (st : RState) (now : Nat) (k m : String) (ttl : Nat) :
    (applyOp now (applyOp now st (.sadd k m)) (.expire k ttl)).strs = st.strs := by
  rw [expire_strs_hit _ _ _ _ _ (sadd_lookup_self st now k m), sadd_strs]

theorem promise_pairs_strs (l : List Nat) (now : Nat) (salt name : String) (st : RState) :
    (applyOps now st ((l.map (fun d =>
       [ RedisOp.sadd (PROMISES ++ toString (now + d))
           ((salt ++ ":" ++ name) ++ "->" ++ (DELAYED ++ toString d ++ ":" ++ name)),
         RedisOp.expire (PROMISES ++ toString (now + d)) (d + 60) ])).flatten)).strs
      = st.strs := by
  induction l generalizing st with
  | nil => rfl
  | cons d l ih =>
    rw [List.map_cons, List.flatten_cons]
    rw [show ∀ (A B : List RedisOp) (s : RState),
        applyOps now s (A ++ B) = applyOps now (applyOps now s A) B
      from fun A B s => List.foldl_append _ _ _ _]
    rw [ih]
    exact pair_strs st now _ _ _

theorem pageWrite_copy_lookup (now : Nat) (salt name value : String) :
    ((pageWriteState now salt name value).strs).lookup (salt ++ ":" ++ name) =
      some (value, some (now + min (max (2*60*60) (cost_based_ttl_nat value)) (60*60*24))) := by
  unfold pageWriteState
  rw [show modify_page_ops now salt name value =
      [ RedisOp.setx name value (some (cost_based_ttl_nat value)),
        RedisOp.setx (salt ++ ":" ++ name) value
          (some (min (max (2*60*60) (cost_based_ttl_nat value)) (60*60*24))),
        RedisOp.xadd (HISTORY ++ name) (salt ++ ":" ++ name) ] ++
      ((DELAY_SECONDS.map (fun d =>
        [ RedisOp.sadd (PROMISES ++ toString (now + d))
            ((salt ++ ":" ++ name) ++ "->" ++ (DELAYED ++ toString d ++ ":" ++ name)),
          RedisOp.expire (PROMISES ++ toString (now + d)) (d + 60) ])).flatten) from rfl]
  rw [show ∀ (A B : List RedisOp) (s : RState),
      applyOps now s (A ++ B) = applyOps now (applyOps now s A) B
    from fun A B s => List.foldl_append _ _ _ _]
  rw [promise_pairs_strs]
  simp only [applyOps, List.foldl, applyOp, List.lookup, beq_self_eq_true]
  rfl

theorem pageWrite_bucket (now : Nat) (salt name value : String) (D : Nat)
    (hD : D ∈ DELAY_SECONDS) :
    bucketState (PROMISES ++ toString (now + D))
      ((salt ++ ":" ++ name) ++ "->" ++ (DELAYED ++ toString D ++ ":" ++ name))
      now (D + 60) (pageWriteState now salt name value) := by
  obtain ⟨L1, L2, hDS⟩ := List.append_of_mem hD
  have hpw : List.Pairwise (· ≤ ·) DELAY_SECONDS := by decide
  rw [hDS, List.pairwise_append] at hpw
  have hL2 : ∀ d ∈ L2, D ≤ d := (List.pairwise_cons.mp hpw.2.1).1
  unfold pageWriteState
  rw [show modify_page_ops now salt name value =
      [ RedisOp.setx name value (some (cost_based_ttl_nat value)),
        RedisOp.setx (salt ++ ":" ++ name) value
          (some (min (max (2*60*60) (cost_based_ttl_nat value)) (60*60*24))),
        RedisOp.xadd (HISTORY ++ name) (salt ++ ":" ++ name) ] ++
      ((DELAY_SECONDS.map (fun d =>
        [ RedisOp.sadd (PROMISES ++ toString (now + d))
            ((salt ++ ":" ++ name) ++ "->" ++ (DELAYED ++ toString d ++ ":" ++ name)),
          RedisOp.expire (PROMISES ++ toString (now + d)) (d + 60) ])).flatten) from rfl]
  rw [hDS, List.map_append, List.map_cons, List.flatten_append, List.flatten_cons]
  rw [show ∀ (A B : List RedisOp) (s : RState),
      applyOps now s (A ++ B) = applyOps now (applyOps now s A) B
    from fun A B s => List.foldl_append _ _ _ _]
  rw [show ∀ (A B : List RedisOp) (s : RState),
      applyOps now s (A ++ B) = applyOps now (applyOps now s A) B
    from fun A B s => List.foldl_append _ _ _ _]
  rw [show ∀ (A B : List RedisOp) (s : RState),
      applyOps now s (A ++ B) = applyOps now (applyOps now s A) B
    from fun A B s => List.foldl_append _ _ _ _]
  apply bucketState_preserve_ops _ _ now (D + 60) _ _ (by omega)
  · intro op hop
    rcases List.mem_flatten.mp hop with ⟨ops1, hops1, hopin⟩
    rcases List.mem_map.mp hops1 with ⟨d, hd, hfd⟩
    subst hfd
    simp only [List.mem_cons, List.not_mem_nil, or_false] at hopin
    rcases hopin with rfl | rfl
    · exact trivial
    · exact Nat.add_le_add_right (hL2 d hd) 60
  · exact bucketState_establish _ now (D + 60) _ _ (D + 60) (le_refl _)

theorem c3_roundtrip_general (now : Nat) (salt name value : String) (D : Nat)
    (hD : D ∈ DELAY_SECONDS) (hname : is_valid_name name = true)
    (hsgt : '>' ∉ salt.data) (hscol : ':' ∉ salt.data)
    (lb exec : Nat) (h1 : now + D ≤ exec) (h2 : exec ≤ now + D + lb - 1)
    (h3 : exec ≤ now + D + 59) :
    ∃ stOut cnt, admin_promises (pageWriteState now salt name value) exec lb
        = .ok (stOut, cnt) ∧
      ∀ t, rediz_get stOut t (DELAYED ++ toString D ++ ":" ++ name) = some value := by
  have hD5 : 5 ≤ D := by
    have hall : ∀ d ∈ DELAY_SECONDS, 5 ≤ d := by decide
    exact hall D hD
  have hD36 : D ≤ 3600 := by
    have hall : ∀ d ∈ DELAY_SECONDS, d ≤ 3600 := by decide
    exact hall D hD
  have hlb : lb ≠ 0 := by omega
  have hngt : '>' ∉ name.data := valid_name_no_gt name hname
  have hndc : hasDoubleColon name.data = false := valid_name_no_dc name hname
  have hcopygt : '>' ∉ (salt ++ ":" ++ name).data := by
    rw [String.data_append, String.data_append]
    intro hm
    rcases List.mem_append.mp hm with hm1 | hm2
    · rcases List.mem_append.mp hm1 with hs | hc
      · exact hsgt hs
      · exact absurd (List.mem_singleton.mp hc) (by decide)
    · exact hngt hm2
  have hdstgt : ∀ d ∈ DELAY_SECONDS, '>' ∉ (DELAYED ++ toString d ++ ":" ++ name).data := by
    intro d hd
    have hdig : '>' ∉ (toString d).data := by
      have hall : ∀ d0 ∈ DELAY_SECONDS, '>' ∉ (toString d0).data := by decide
      exact hall d hd
    rw [String.data_append, String.data_append, String.data_append]
    intro hm
    rcases List.mem_append.mp hm with hm1 | hm2
    · rcases List.mem_append.mp hm1 with hm3 | hc
      · rcases List.mem_append.mp hm3 with hdel | hdg
        · exact absurd hdel (by decide)
        · exact hdig hdg
      · exact absurd (List.mem_singleton.mp hc) (by decide)
    · exact hngt hm2
  have hpoolmem : ∀ x ∈ c3_pool (pageWriteState now salt name value) lb exec,
      ∃ d ∈ DELAY_SECONDS,
        x = (salt ++ ":" ++ name) ++ "->" ++ (DELAYED ++ toString d ++ ":" ++ name) := by
    intro x hx
    rcases List.mem_flatten.mp hx with ⟨l, hl, hxl⟩
    rcases List.mem_map.mp hl with ⟨c, _, rfl⟩
    rcases mem_smembersAt_entries _ _ _ _ hxl with ⟨p, hp, hxp⟩
    exact pageWrite_sets_members now salt name value p hp x hxp
  have hparse : ∀ x ∈ c3_pool (pageWriteState now salt name value) lb exec,
      split_promise x = .ok (promiseParts x) := by
    intro x hx
    obtain ⟨d, hd, rfl⟩ := hpoolmem x hx
    rw [promiseParts_arrow _ _ hcopygt (hdstgt d hd)]
    exact split_promise_arrow _ _ hcopygt (hdstgt d hd)
  have hsrc : ∀ x ∈ c3_pool (pageWriteState now salt name value) lb exec,
      (promiseParts x).1 = salt ++ ":" ++ name := by
    intro x hx
    obtain ⟨d, hd, rfl⟩ := hpoolmem x hx
    rw [promiseParts_arrow _ _ hcopygt (hdstgt d hd)]
  have hcopyrget : rget (c3_st1 (pageWriteState now salt name value) lb exec) exec
      (salt ++ ":" ++ name) = some value := by
    rw [rget_delKeys_notmem _ _ _ _ _ (copy_notmem_candidates salt name hscol hndc exec lb)]
    have hlive : aliveAt exec
        (some (now + min (max (2*60*60) (cost_based_ttl_nat value)) (60*60*24))) = true := by
      simp only [aliveAt, decide_eq_true_eq]
      omega
    simp only [rget, pageWrite_copy_lookup, hlive, if_true]
  have hvals : ∀ x ∈ c3_pool (pageWriteState now salt name value) lb exec,
      rget (c3_st1 (pageWriteState now salt name value) lb exec) exec
        ((promiseParts x).1) = some value := by
    intro x hx
    rw [hsrc x hx]
    exact hcopyrget
  obtain ⟨ms, e, hlook, hmem, hexp⟩ := pageWrite_bucket now salt name value D hD
  have hbucket : (salt ++ ":" ++ name) ++ "->" ++ (DELAYED ++ toString D ++ ":" ++ name)
      ∈ smembersAt (pageWriteState now salt name value) exec
          (PROMISES ++ toString (now + D)) := by
    have halive : aliveAt exec e = true := by
      rcases hexp with rfl | ⟨ttl, httl, rfl⟩
      · rfl
      · simp only [aliveAt, decide_eq_true_eq]
        omega
    simp only [smembersAt, hlook, halive, if_true]
    exact hmem
  have hmemL : (salt ++ ":" ++ name) ++ "->" ++ (DELAYED ++ toString D ++ ":" ++ name)
      ∈ c3_pool (pageWriteState now salt name value) lb exec := by
    apply List.mem_flatten.mpr
    refine ⟨smembersAt (pageWriteState now salt name value) exec
      (PROMISES ++ toString (now + D)), ?_, hbucket⟩
    have hs0 : PROMISES ++ toString (now + D) =
        PROMISES ++ toString (exec - (exec - (now + D))) := by
      rw [Nat.sub_sub_self h1]
    rw [hs0]
    exact List.mem_map_of_mem _
      (List.mem_map_of_mem _ (List.mem_range.mpr (by omega)))
  have hLne : c3_pool (pageWriteState now salt name value) lb exec ≠ [] :=
    List.ne_nil_of_mem hmemL
  obtain ⟨hadmin, hallmap⟩ :=
    c3_run (pageWriteState now salt name value) value lb exec hlb hLne hparse hvals
  have hkeys : (DELAYED ++ toString D ++ ":" ++ name)
      ∈ (c3_mapping (pageWriteState now salt name value) lb exec).map Prod.fst := by
    apply pyDict_key_mem
    rw [List.map_fst_zip _ _ (by simp only [List.length_map]; exact le_refl _)]
    have hdm : (DELAYED ++ toString D ++ ":" ++ name) = (fun p => p.2)
        (promiseParts ((salt ++ ":" ++ name) ++ "->" ++
          (DELAYED ++ toString D ++ ":" ++ name))) := by
      rw [promiseParts_arrow _ _ hcopygt (hdstgt D hD)]
    rw [hdm]
    exact List.mem_map_of_mem _ (List.mem_map_of_mem _ hmemL)
  exact ⟨c3_stOut (pageWriteState now salt name value) lb exec,
    (c3_mapping (pageWriteState now salt name value) lb exec).length, hadmin,
    fun t => rget_msetfold_mem _ _ _ _ _ _ hallmap hkeys⟩

/-- C3 (amended): every accepted write of `value` to a valid `name` (with
`salt` the `random_key()` uuid draw, which contains neither `>` nor `:`)
registers, for each configured delay `D`, a promise member mapping the
history copy `salt:name` to the delay-labeled destination
`delayed::D:name` in the bucket keyed `now + D`, and sets that bucket's
expiry `D + 60` seconds past maturity; and running `admin_promises` with
any lookback `lb` at any time `exec` with
`now + D ≤ exec ≤ now + D + min(lb, 60) - 1` — i.e. strictly before both
the end of the lookback window and the bucket's expiry — succeeds and makes
a subsequent `get` of the delay-labeled destination return `value`. -/
theorem c3_amended :
    (∀ (now : Nat) (salt name value : String) (D : Nat), D ∈ DELAY_SECONDS →
      RedisOp.sadd (PROMISES ++ toString (now + D))
          ((salt ++ ":" ++ name) ++ "->" ++ (DELAYED ++ toString D ++ ":" ++ name))
        ∈ modify_page_ops now salt name value ∧
      RedisOp.expire (PROMISES ++ toString (now + D)) (D + 60)
        ∈ modify_page_ops now salt name value) ∧
    (∀ (now : Nat) (salt name value : String) (D : Nat), D ∈ DELAY_SECONDS →
      is_valid_name name = true → '>' ∉ salt.data → ':' ∉ salt.data →
      ∀ (lb exec : Nat), now + D ≤ exec → exec ≤ now + D + lb - 1 →
        exec ≤ now + D + 59 →
      ∃ stOut cnt, admin_promises (pageWriteState now salt name value) exec lb
          = .ok (stOut, cnt) ∧
        ∀ t, rediz_get stOut t (DELAYED ++ toString D ++ ":" ++ name) = some value) := by
  constructor
  · intro now salt name value D hD
    constructor
    · unfold modify_page_ops
      refine List.mem_append.mpr (Or.inr (List.mem_flatten.mpr
        ⟨_, List.mem_map_of_mem _ hD, ?_⟩))
      exact List.mem_cons_self _ _
    · unfold modify_page_ops
      refine List.mem_append.mpr (Or.inr (List.mem_flatten.mpr
        ⟨_, List.mem_map_of_mem _ hD, ?_⟩))
      exact List.mem_cons_of_mem _ (List.mem_cons_self _ _)
  · intro now salt name value D hD hname hsgt hscol lb exec h1 h2 h3
    exact c3_roundtrip_general now salt name value D hD hname hsgt hscol lb exec h1 h2 h3

set_option maxRecDepth 20000 in
/-- C3 counterexample: the representative write registers the delay-5
promise at epoch 100, maturing at 105.  The claim admits any execution time
between `now + D` and `now + D + lookback`; with a 6-second lookback,
`exec = 111` lies in that window, but the candidate buckets only reach back
to `111 - 5 = 106`, so the matured bucket `promises:105` is never examined:
`admin_promises` succeeds (executing the delay-10 promise it does find) yet
a subsequent `get` of `delayed::5:n.json` still returns nothing, at every
read time. -/
theorem c3_counterexample_endpoint_missed :
    (100 + 5 ≤ 111 ∧ 111 ≤ 100 + 5 + 6) ∧
    ∃ stOut cnt, admin_promises promiseWriteState 111 6 = .ok (stOut, cnt) ∧
      ∀ t, rediz_get stOut t (DELAYED ++ toString 5 ++ ":" ++ "n.json") = none := by
  have hpool : c3_pool promiseWriteState 6 111 = ["s:n.json->delayed::10:n.json"] := by decide
  have hparse : ∀ x ∈ c3_pool promiseWriteState 6 111,
      split_promise x = .ok (promiseParts x) := by
    intro x hx
    rw [hpool] at hx
    rw [List.mem_singleton.mp hx]
    rfl
  have hcopy : rget (c3_st1 promiseWriteState 6 111) 111 "s:n.json" = some "v" :=
    c3_copy_rget 6 111 (by omega)
  have hvals : ∀ x ∈ c3_pool promiseWriteState 6 111,
      rget (c3_st1 promiseWriteState 6 111) 111 ((promiseParts x).1) = some "v" := by
    intro x hx
    rw [hpool] at hx
    rw [List.mem_singleton.mp hx]
    exact hcopy
  obtain ⟨hadmin, _⟩ := c3_run promiseWriteState "v" 6 111 (by omega)
    (by intro h0; rw [hpool] at h0; cases h0) hparse hvals
  refine ⟨⟨by omega, by omega⟩, c3_stOut promiseWriteState 6 111,
    (c3_mapping promiseWriteState 6 111).length, hadmin, ?_⟩
  intro t
  have hm : c3_mapping promiseWriteState 6 111 =
      [("delayed::10:n.json", rget (c3_st1 promiseWriteState 6 111) 111 "s:n.json")] := rfl
  have hmapkeys : (DELAYED ++ toString 5 ++ ":" ++ "n.json")
      ∉ (c3_mapping promiseWriteState 6 111).map Prod.fst := by
    rw [hm]
    intro hmem
    rw [List.map_cons, List.mem_cons] at hmem
    rcases hmem with h | h
    · exact absurd h (by decide)
    · cases h
  show rget ((c3_mapping promiseWriteState 6 111).foldl
    (fun s p => applyOp 111 s (.setx p.1 (p.2.getD "") none))
    (c3_st1 promiseWriteState 6 111)) t
    (DELAYED ++ toString 5 ++ ":" ++ "n.json") = none
  rw [rget_msetfold_notmem _ _ _ _ _ hmapkeys]
  rw [rget_delKeys_notmem _ _ _ _ _ (by decide)]
  have hnone : List.lookup (DELAYED ++ toString 5 ++ ":" ++ "n.json")
      promiseWriteState.strs = none := rfl
  simp only [rget, hnone]

/-- Witness for C3 (amended), at delay `D = 5` for a write of `"v"` to
`"n.json"` at epoch 100 with salt `"s"`: the promise member and its bucket
expiry are among the queued operations, and running `admin_promises` with
the default 65-second lookback at maturity `exec = 105` succeeds and makes
`delayed::5:n.json` return `"v"`. -/
theorem c3_witness :
    (RedisOp.sadd (PROMISES ++ toString (100 + 5))
        (("s" ++ ":" ++ "n.json") ++ "->" ++ (DELAYED ++ toString 5 ++ ":" ++ "n.json"))
      ∈ modify_page_ops 100 "s" "n.json" "v" ∧
     RedisOp.expire (PROMISES ++ toString (100 + 5)) (5 + 60)
      ∈ modify_page_ops 100 "s" "n.json" "v") ∧
    ((5 ∈ DELAY_SECONDS ∧ is_valid_name "n.json" = true ∧
      '>' ∉ ("s" : String).data ∧ ':' ∉ ("s" : String).data ∧
      100 + 5 ≤ 105 ∧ 105 ≤ 100 + 5 + 65 - 1 ∧ 105 ≤ 100 + 5 + 59) ∧
     ∃ stOut cnt, admin_promises (pageWriteState 100 "s" "n.json" "v") 105 65
        = .ok (stOut, cnt) ∧
       ∀ t, rediz_get stOut t (DELAYED ++ toString 5 ++ ":" ++ "n.json") = some "v") :=
  ⟨c3_amended.1 100 "s" "n.json" "v" 5 (by decide),
   ⟨by decide, by decide, by decide, by decide, by decide, by decide, by decide⟩,
   c3_amended.2 100 "s" "n.json" "v" 5 (by decide) (by decide) (by decide) (by decide)
     65 105 (by decide) (by decide) (by decide)⟩
